import Mathlib

/-!
Shallow embedding of the chess engine's position core (position.cpp,
zobrist_hash.cpp, hash_position.cpp, search.cpp cutoff block, SEE) and
proofs about its specification claims.

Machine integers are modelled as `Nat` with explicit wrap (`% 256` for the
`uint8_t` half-move clock); 64-bit bitboards are `Nat` values manipulated
with `&&& ||| ^^^` (xor/and/or never overflow the 64-bit range of their
operands).  Enumerations are inductive types; `NO_PIECE` is `none`.
-/

namespace engine

/-- Colors, source enum `Color` (`WHITE`, `BLACK`); `!side` is `Color.other`. -/
inductive Color where
  | white
  | black
deriving DecidableEq, Repr

def Color.other : Color → Color
  | .white => .black
  | .black => .white

instance : Fintype Color := ⟨⟨{.white, .black}, by decide⟩, by intro c; cases c <;> decide⟩

/-- Piece kinds, source enum `PieceKind` (`PAWN..KING`); `NO_PIECE_KIND` is `Option.none`
at use sites. -/
inductive PieceKind where
  | pawn
  | knight
  | bishop
  | rook
  | queen
  | king
deriving DecidableEq, Repr

instance : Fintype PieceKind :=
  ⟨⟨{.pawn, .knight, .bishop, .rook, .queen, .king}, by decide⟩, by intro k; cases k <;> decide⟩

/-- A colored piece; source `Piece` values `W_PAWN..B_KING`. -/
abbrev ColoredPiece := Color × PieceKind

/-- Source `Piece` including `NO_PIECE` (modelled as `none`). -/
abbrev Piece := Option ColoredPiece

/-- Squares 0..63, A1 = 0, H8 = 63 (rank-major: square = 8*rank + file). -/
abbrev Square := Fin 64

def fileOf (sq : Square) : Fin 8 := ⟨sq.val % 8, Nat.mod_lt _ (by omega)⟩

def rankOf (sq : Square) : Fin 8 := ⟨sq.val / 8, by omega⟩

def mkSq (r f : Fin 8) : Square := ⟨8 * r.val + f.val, by omega⟩

/-- Bitboards: 64-bit masks, modelled as `Nat` (all operations used are
bit-parallel and stay below `2^64` for inputs below `2^64`). -/
abbrev Bitboard := Nat

def square_bb (sq : Square) : Bitboard := 2 ^ sq.val

def no_squares_bb : Bitboard := 0

/-- Castling rights / castling kinds as the source's 4-bit set:
`W_OO = 1`, `W_OOO = 2`, `B_OO = 4`, `B_OOO = 8`. -/
abbrev Castling := Nat

def W_OO : Castling := 1
def W_OOO : Castling := 2
def B_OO : Castling := 4
def B_OOO : Castling := 8
def NO_CASTLING : Castling := 0
def KING_CASTLING : Castling := W_OO ||| B_OO
def QUEEN_CASTLING : Castling := W_OOO ||| B_OOO
def ALL_CASTLING : Castling := 15

/-- Modelled from the spec: the `Castling` constants and its complement
operator come from the missing `types.h`.  The spec (§3) calls castling
rights "a 4-bit set {W_OO, W_OOO, B_OO, B_OOO}", and its scenario 5
requires `Ra1-a2` to clear only `W_OOO`; hence `operator!` on `Castling`
is complement within the 4-bit universe. -/
def castNot (c : Castling) : Castling := (c &&& 15) ^^^ 15

/-- Source `CASTLING_RIGHTS[side]`: both rights of one side. -/
def CASTLING_RIGHTS : Color → Castling
  | .white => W_OO ||| W_OOO
  | .black => B_OO ||| B_OOO

/-- Source `KING_SIDE_ROOK_SQUARE[side]` (H1 / H8). -/
def KING_SIDE_ROOK_SQUARE : Color → Square
  | .white => ⟨7, by decide⟩
  | .black => ⟨63, by decide⟩

/-- Source `QUEEN_SIDE_ROOK_SQUARE[side]` (A1 / A8). -/
def QUEEN_SIDE_ROOK_SQUARE : Color → Square
  | .white => ⟨0, by decide⟩
  | .black => ⟨56, by decide⟩

/-- Modelled from the spec: the packed move encoding lives in the missing
`move.h`; per spec §3/§4.3 a move recoverably packs `{from, to, promotion,
castling-kind}` and "castling moves do not encode squares" (their square
fields read as zero).  We model the four recoverable components as fields. -/
structure Move where
  fromSq : Square
  toSq : Square
  promo : Option PieceKind
  castle : Castling
deriving DecidableEq, Repr

def NO_MOVE : Move := ⟨⟨0, by decide⟩, ⟨0, by decide⟩, none, NO_CASTLING⟩

def create_move (f t : Square) : Move := ⟨f, t, none, NO_CASTLING⟩

def create_promotion (f t : Square) (p : Option PieceKind) : Move := ⟨f, t, p, NO_CASTLING⟩

def create_castling (c : Castling) : Move := ⟨⟨0, by decide⟩, ⟨0, by decide⟩, none, c⟩

def KING_CASTLING_MOVE : Move := create_castling KING_CASTLING
def QUEEN_CASTLING_MOVE : Move := create_castling QUEEN_CASTLING

/-- Modelled from the spec: the undo record (`MoveInfo`, missing header) packs
"captured piece-kind (may be NONE), prior castling set, prior en-passant
square (or NONE), a flag indicating the move itself was an en-passant
capture, and the prior half-move counter" (spec §3). -/
structure MoveInfo where
  captured : Option PieceKind
  castling : Castling
  epSq : Option Square
  wasEp : Bool
  halfmove : Nat
deriving DecidableEq, Repr

def create_moveinfo (captured : Option PieceKind) (castling : Castling)
    (epSq : Option Square) (wasEp : Bool) (halfmove : Nat) : MoveInfo :=
  ⟨captured, castling, epSq, wasEp, halfmove⟩

/-- The Zobrist random tables (`zobrist.h`): constants for every
(piece, square), the four castling flags, the eight en-passant files and
the side to move.  The engine's behaviour is uniform in the table, so all
universal theorems quantify over it. -/
structure ZTab where
  piece : ColoredPiece → Square → Nat
  castlingWS : Nat
  castlingWL : Nat
  castlingBS : Nat
  castlingBL : Nat
  ep : Fin 8 → Nat
  turn : Nat

/-- The five Zobrist subkeys of `HashKey` (zobrist_hash.cpp). -/
structure HashKey where
  piece_key : Nat
  pawn_key : Nat
  enpassant_key : Nat
  castling_key : Nat
  color_key : Nat
deriving DecidableEq, Repr

namespace HashKey

def get_key (k : HashKey) : Nat :=
  k.piece_key ^^^ k.pawn_key ^^^ k.enpassant_key ^^^ k.castling_key ^^^ k.color_key

def toggle_piece (T : ZTab) (k : HashKey) (p : ColoredPiece) (sq : Square) : HashKey :=
  if p.2 = PieceKind.pawn then
    { k with pawn_key := k.pawn_key ^^^ T.piece p sq }
  else
    { k with piece_key := k.piece_key ^^^ T.piece p sq }

def move_piece (T : ZTab) (k : HashKey) (p : ColoredPiece) (f t : Square) : HashKey :=
  (k.toggle_piece T p f).toggle_piece T p t

def flip_side (T : ZTab) (k : HashKey) : HashKey :=
  { k with color_key := k.color_key ^^^ T.turn }

def clear_enpassant (k : HashKey) : HashKey :=
  { k with enpassant_key := 0 }

def set_enpassant (T : ZTab) (k : HashKey) (f : Fin 8) : HashKey :=
  { k with enpassant_key := T.ep f }

/-- `set_castling` rewrites the castling subkey from scratch. -/
def castKeyOf (T : ZTab) (c : Castling) : Nat :=
  (if c &&& W_OO ≠ 0 then T.castlingWS else 0) ^^^
  (if c &&& W_OOO ≠ 0 then T.castlingWL else 0) ^^^
  (if c &&& B_OO ≠ 0 then T.castlingBS else 0) ^^^
  (if c &&& B_OOO ≠ 0 then T.castlingBL else 0)

def set_castling (T : ZTab) (k : HashKey) (c : Castling) : HashKey :=
  { k with castling_key := castKeyOf T c }

end HashKey

/-- The authoritative board state (position.h / position.cpp).  The C++
`_piece_position[p][10]` array plus `_piece_count[p]` is modelled as the
list of its first `_piece_count[p]` entries; `_history` plus
`_history_counter` likewise as the list of live entries. -/
structure Position where
  board : Square → Piece
  byColor : Color → Bitboard
  byKind : PieceKind → Bitboard
  piecePos : ColoredPiece → List Square
  side : Color
  castlingRights : Castling
  epSquare : Option Square
  halfMove : Nat
  ply : Nat
  zobrist : HashKey
  history : List Nat

namespace Position

def piece_at (P : Position) (sq : Square) : Piece := P.board sq

def pieces (P : Position) : Bitboard := P.byColor .white ||| P.byColor .black

def piecesC (P : Position) (c : Color) : Bitboard := P.byColor c

def piecesK (P : Position) (k : PieceKind) : Bitboard := P.byKind k

def piecesCK (P : Position) (c : Color) (k : PieceKind) : Bitboard :=
  P.byColor c &&& P.byKind k

def piecesCKK (P : Position) (c : Color) (k1 k2 : PieceKind) : Bitboard :=
  P.piecesCK c k1 ||| P.piecesCK c k2

def hash (P : Position) : Nat := P.zobrist.get_key

/-- C++ `remove_piece`'s list update: scan the first `count-1` slots for the
first occurrence of `sq`, overwrite it with the last slot, then drop the
last slot. -/
def replaceFirst : List Square → Square → Square → List Square
  | [], _, _ => []
  | x :: xs, a, b => if x = a then b :: xs else x :: replaceFirst xs a b

def removeList (l : List Square) (sq : Square) : List Square :=
  match l.getLast? with
  | none => []
  | some last => replaceFirst l.dropLast sq last

def add_piece (T : ZTab) (P : Position) (p : ColoredPiece) (sq : Square) : Position :=
  { P with
    board := Function.update P.board sq (some p)
    byColor := Function.update P.byColor p.1 (P.byColor p.1 ||| square_bb sq)
    byKind := Function.update P.byKind p.2 (P.byKind p.2 ||| square_bb sq)
    piecePos := Function.update P.piecePos p (P.piecePos p ++ [sq])
    zobrist := P.zobrist.toggle_piece T p sq }

def remove_piece (T : ZTab) (P : Position) (sq : Square) : Position :=
  match P.board sq with
  | none => P
  | some p =>
    { P with
      board := Function.update P.board sq none
      byColor := Function.update P.byColor p.1 (P.byColor p.1 ^^^ square_bb sq)
      byKind := Function.update P.byKind p.2 (P.byKind p.2 ^^^ square_bb sq)
      piecePos := Function.update P.piecePos p (removeList (P.piecePos p) sq)
      zobrist := P.zobrist.toggle_piece T p sq }

def move_piece (T : ZTab) (P : Position) (f t : Square) : Position :=
  match P.board f with
  | none => P
  | some p =>
    { P with
      board := Function.update (Function.update P.board f none) t (some p)
      byColor := Function.update P.byColor p.1
        (P.byColor p.1 ^^^ (square_bb f ||| square_bb t))
      byKind := Function.update P.byKind p.2
        (P.byKind p.2 ^^^ (square_bb f ||| square_bb t))
      piecePos := Function.update P.piecePos p (replaceFirst (P.piecePos p) f t)
      zobrist := P.zobrist.move_piece T p f t }

def change_current_side (T : ZTab) (P : Position) : Position :=
  { P with zobrist := P.zobrist.flip_side T, side := P.side.other }

def set_enpassant_square (P : Position) (sq : Option Square) : Position :=
  { P with epSquare := sq }

/-- Square of the pawn captured en passant: `to + (side == WHITE ? -8 : 8)`,
wrapped mod 64 as the C++ int-to-enum narrowing would for in-range play. -/
def epCapSq (side : Color) (t : Square) : Square :=
  if side = Color.white then ⟨(t.val + 56) % 64, Nat.mod_lt _ (by omega)⟩
  else ⟨(t.val + 8) % 64, Nat.mod_lt _ (by omega)⟩

def homeRank (side : Color) : Fin 8 :=
  if side = Color.white then ⟨0, by decide⟩ else ⟨7, by decide⟩

def sq4 : Fin 8 := ⟨4, by decide⟩
def sq6 : Fin 8 := ⟨6, by decide⟩
def sq7 : Fin 8 := ⟨7, by decide⟩
def sq5 : Fin 8 := ⟨5, by decide⟩
def sq2 : Fin 8 := ⟨2, by decide⟩
def sq0 : Fin 8 := ⟨0, by decide⟩
def sq3 : Fin 8 := ⟨3, by decide⟩

/-- The castling branch of `do_move` (position.cpp:489-508). -/
def doCastleMoves (T : ZTab) (P : Position) (side : Color) (c : Castling) : Position :=
  let r := homeRank side
  if c = KING_CASTLING then
    (P.move_piece T (mkSq r sq4) (mkSq r sq6)).move_piece T (mkSq r sq7) (mkSq r sq5)
  else
    (P.move_piece T (mkSq r sq4) (mkSq r sq2)).move_piece T (mkSq r sq0) (mkSq r sq3)

/-- The double-push test of `do_move` (position.cpp:562-565): the moved piece
is a pawn going from its second rank to the en-passant rank. -/
def isDoublePush (side : Color) (movedKind : Option PieceKind) (m : Move) : Prop :=
  movedKind = some PieceKind.pawn ∧
  rankOf m.fromSq = (if side = Color.white then (⟨1, by decide⟩ : Fin 8) else ⟨6, by decide⟩) ∧
  rankOf m.toSq = (if side = Color.white then (⟨3, by decide⟩ : Fin 8) else ⟨4, by decide⟩)

instance (side movedKind m) : Decidable (isDoublePush side movedKind m) := by
  unfold isDoublePush; infer_instance

/-- Lines 562-571 of `do_move`: set or clear the en-passant square (the
subkey is set unconditionally whenever the square is set). -/
def setEpAfterMove (T : ZTab) (P : Position) (side : Color) (movedKind : Option PieceKind)
    (m : Move) : Position :=
  if isDoublePush side movedKind m then
    { P with epSquare := some (epCapSq side m.toSq),
             zobrist := P.zobrist.set_enpassant T (fileOf (epCapSq side m.toSq)) }
  else
    P.set_enpassant_square none

/-- Lines 545-558 of `do_move`: clear castling rights for king moves, rook
moves off a home square, and rook captures on a home square. -/
def updateCastlingRights (side : Color) (movedKind captured : Option PieceKind) (m : Move)
    (c : Castling) : Castling :=
  let c := if movedKind = some PieceKind.king then c &&& castNot (CASTLING_RIGHTS side) else c
  let c :=
    if movedKind = some PieceKind.rook ∧ m.fromSq = KING_SIDE_ROOK_SQUARE side then
      c &&& castNot (CASTLING_RIGHTS side &&& KING_CASTLING)
    else c
  let c :=
    if movedKind = some PieceKind.rook ∧ m.fromSq = QUEEN_SIDE_ROOK_SQUARE side then
      c &&& castNot (CASTLING_RIGHTS side &&& QUEEN_CASTLING)
    else c
  let c :=
    if captured = some PieceKind.rook ∧ m.toSq = KING_SIDE_ROOK_SQUARE side.other then
      c &&& castNot (CASTLING_RIGHTS side.other &&& KING_CASTLING)
    else c
  let c :=
    if captured = some PieceKind.rook ∧ m.toSq = QUEEN_SIDE_ROOK_SQUARE side.other then
      c &&& castNot (CASTLING_RIGHTS side.other &&& QUEEN_CASTLING)
    else c
  c

/-- The union of the right-masks `updateCastlingRights` applies (used to
state its effect in one step). -/
def clearMask (side : Color) (movedKind captured : Option PieceKind) (m : Move) : Castling :=
  (if movedKind = some PieceKind.king then CASTLING_RIGHTS side else 0) |||
  (if movedKind = some PieceKind.rook ∧ m.fromSq = KING_SIDE_ROOK_SQUARE side then
     CASTLING_RIGHTS side &&& KING_CASTLING else 0) |||
  (if movedKind = some PieceKind.rook ∧ m.fromSq = QUEEN_SIDE_ROOK_SQUARE side then
     CASTLING_RIGHTS side &&& QUEEN_CASTLING else 0) |||
  (if captured = some PieceKind.rook ∧ m.toSq = KING_SIDE_ROOK_SQUARE side.other then
     CASTLING_RIGHTS side.other &&& KING_CASTLING else 0) |||
  (if captured = some PieceKind.rook ∧ m.toSq = QUEEN_SIDE_ROOK_SQUARE side.other then
     CASTLING_RIGHTS side.other &&& QUEEN_CASTLING else 0)

/-- `Position::do_move` (position.cpp:475), translated line by line; the
castling-rights/en-passant sub-steps are split into the helpers above. -/
def do_move (T : ZTab) (P0 : Position) (m : Move) : Position × MoveInfo :=
  let side := P0.side
  let P1 := P0.change_current_side T
  let P2 := { P1 with ply := P1.ply + 1 }
  let prev_castling := P2.castlingRights
  let prev_enpassant_sq := P2.epSquare
  let hm_counter := P2.halfMove
  let P3 := { P2 with zobrist := P2.zobrist.clear_enpassant }
  if m.castle ≠ NO_CASTLING then
    let P4 := { P3 with halfMove := 0 }
    let P5 := doCastleMoves T P4 side m.castle
    let P6 := { P5 with castlingRights := P5.castlingRights &&& castNot (CASTLING_RIGHTS side) }
    let P7 := { P6 with zobrist := P6.zobrist.set_castling T P6.castlingRights }
    let P8 := P7.set_enpassant_square none
    let P9 := { P8 with history := P8.history ++ [P8.zobrist.get_key] }
    (P9, create_moveinfo none prev_castling prev_enpassant_sq false hm_counter)
  else
    let moved_piece := P3.board m.fromSq
    let captured_piece := P3.board m.toSq
    let captured : Option PieceKind := captured_piece.map Prod.snd
    let movedKind := moved_piece.map Prod.snd
    let P4 :=
      if movedKind ≠ some PieceKind.pawn ∧ captured = none then
        { P3 with halfMove := (P3.halfMove + 1) % 256 }
      else
        { P3 with halfMove := 0 }
    if movedKind = some PieceKind.pawn ∧ some m.toSq = P4.epSquare then
      let P5 := P4.move_piece T m.fromSq m.toSq
      let P6 := P5.remove_piece T (epCapSq side m.toSq)
      let P7 := setEpAfterMove T P6 side movedKind m
      let P8 := { P7 with history := P7.history ++ [P7.zobrist.get_key] }
      (P8, create_moveinfo captured prev_castling prev_enpassant_sq true hm_counter)
    else
      let P5 := if captured_piece ≠ none then P4.remove_piece T m.toSq else P4
      let P6 :=
        match m.promo with
        | some pk => (P5.remove_piece T m.fromSq).add_piece T (side, pk) m.toSq
        | none => P5.move_piece T m.fromSq m.toSq
      let P7 := { P6 with
        castlingRights := updateCastlingRights side movedKind captured m P6.castlingRights }
      let P8 := { P7 with zobrist := P7.zobrist.set_castling T P7.castlingRights }
      let P9 := setEpAfterMove T P8 side movedKind m
      let P10 := { P9 with history := P9.history ++ [P9.zobrist.get_key] }
      (P10, create_moveinfo captured prev_castling prev_enpassant_sq false hm_counter)

/-- The castling branch of `undo_move` (position.cpp:599-612). -/
def undoCastleMoves (T : ZTab) (P : Position) (side : Color) (c : Castling) : Position :=
  let r := homeRank side
  if c = KING_CASTLING then
    (P.move_piece T (mkSq r sq6) (mkSq r sq4)).move_piece T (mkSq r sq5) (mkSq r sq7)
  else
    (P.move_piece T (mkSq r sq2) (mkSq r sq4)).move_piece T (mkSq r sq3) (mkSq r sq0)

/-- `Position::undo_move` (position.cpp:581), translated line by line. -/
def undo_move (T : ZTab) (P0 : Position) (m : Move) (info : MoveInfo) : Position :=
  let P1 := P0.change_current_side T
  let side := P1.side
  let P2 := { P1 with ply := P1.ply - 1 }
  let P3 := { P2 with castlingRights := info.castling }
  let P4 := { P3 with zobrist := P3.zobrist.set_castling T P3.castlingRights }
  let P5 := P4.set_enpassant_square info.epSq
  let P6 :=
    match info.epSq with
    | none => { P5 with zobrist := P5.zobrist.clear_enpassant }
    | some sq => { P5 with zobrist := P5.zobrist.set_enpassant T (fileOf sq) }
  let P7 := { P6 with halfMove := info.halfmove }
  let P8 :=
    if m.castle ≠ NO_CASTLING then
      undoCastleMoves T P7 side m.castle
    else
      let Pa :=
        if info.wasEp then P7.add_piece T (side.other, PieceKind.pawn) (epCapSq side m.toSq)
        else P7
      let Pb :=
        match m.promo with
        | some _ => (Pa.add_piece T (side, PieceKind.pawn) m.fromSq).remove_piece T m.toSq
        | none => Pa.move_piece T m.toSq m.fromSq
      match info.captured with
      | some k => Pb.add_piece T (side.other, k) m.toSq
      | none => Pb
  { P8 with history := P8.history.dropLast }

/-- `Position::do_null_move` (position.cpp:644). -/
def do_null_move (T : ZTab) (P0 : Position) : Position × MoveInfo :=
  let P := P0.change_current_side T
  let P := { P with ply := P.ply + 1 }
  let P := { P with halfMove := (P.halfMove + 1) % 256 }
  let enpassant_sq := P.epSquare
  let P := P.set_enpassant_square none
  let P := { P with zobrist := P.zobrist.clear_enpassant }
  (P, create_moveinfo none NO_CASTLING enpassant_sq false 0)

/-- `Position::undo_null_move` (position.cpp:657). -/
def undo_null_move (T : ZTab) (P0 : Position) (info : MoveInfo) : Position :=
  let P := P0.change_current_side T
  let P := { P with ply := P.ply - 1 }
  let P := { P with halfMove := (P.halfMove + 255) % 256 }
  let P := P.set_enpassant_square info.epSq
  match info.epSq with
  | none => P
  | some sq => { P with zobrist := P.zobrist.set_enpassant T (fileOf sq) }

end Position

/-! ### Attack geometry

Modelled from the spec: the attack tables (`bitboard.h` / `move_bitboards`)
are missing from the sources; spec §4.1 specifies per-square pawn, knight
and king target masks and on-the-fly sliding attacks computed by a ray scan
over blockers (the blocker square is included). -/

def mask64 : Nat := 2 ^ 64 - 1

def bbNot (b : Bitboard) : Bitboard := b ^^^ mask64

def toSq (r f : Int) : Option Square :=
  if h : 0 ≤ r ∧ r < 8 ∧ 0 ≤ f ∧ f < 8 then
    some ⟨(8 * r + f).toNat, by omega⟩
  else none

def offsetsBB (sq : Square) (offs : List (Int × Int)) : Bitboard :=
  offs.foldl
    (fun acc d =>
      match toSq ((rankOf sq).val + d.1) ((fileOf sq).val + d.2) with
      | some s => acc ||| square_bb s
      | none => acc)
    0

def KNIGHT_MASK (sq : Square) : Bitboard :=
  offsetsBB sq [(2, 1), (2, -1), (-2, 1), (-2, -1), (1, 2), (1, -2), (-1, 2), (-1, -2)]

def KING_MASK (sq : Square) : Bitboard :=
  offsetsBB sq [(1, -1), (1, 0), (1, 1), (0, -1), (0, 1), (-1, -1), (-1, 0), (-1, 1)]

/-- Squares attacked by a pawn of color `c` standing on `sq`. -/
def pawnAttacksFrom (c : Color) (sq : Square) : Bitboard :=
  if c = Color.white then offsetsBB sq [(1, -1), (1, 1)]
  else offsetsBB sq [(-1, -1), (-1, 1)]

/-- `pawn_attacks(bb, color)`: union of pawn attacks from every square of `bb`. -/
def pawn_attacks (bb : Bitboard) (c : Color) : Bitboard :=
  (List.finRange 64).foldl
    (fun acc sq => if bb.testBit sq.val then acc ||| pawnAttacksFrom c sq else acc) 0

/-- One sliding ray from (r,f) along direction `d`, stopping at (and
including) the first blocker. -/
def rayWalk (blockers : Bitboard) (d : Int × Int) : Int → Int → Nat → Bitboard
  | _, _, 0 => 0
  | r, f, fuel + 1 =>
    match toSq (r + d.1) (f + d.2) with
    | none => 0
    | some s =>
      if blockers.testBit s.val then square_bb s
      else square_bb s ||| rayWalk blockers d (r + d.1) (f + d.2) fuel

def bishopDirs : List (Int × Int) := [(1, 1), (1, -1), (-1, 1), (-1, -1)]
def rookDirs : List (Int × Int) := [(1, 0), (-1, 0), (0, 1), (0, -1)]

def sliderDirs : PieceKind → List (Int × Int)
  | .bishop => bishopDirs
  | .rook => rookDirs
  | .queen => bishopDirs ++ rookDirs
  | _ => []

/-- `slider_attack<kind>(sq, blockers)`. -/
def slider_attack (k : PieceKind) (sq : Square) (blockers : Bitboard) : Bitboard :=
  (sliderDirs k).foldl
    (fun acc d => acc ||| rayWalk blockers d (rankOf sq).val (fileOf sq).val 8) 0

namespace Position

/-- `piece_position(piece)` / `piece_position(piece, 0)`: the first slot of
the piece list. -/
def piece_position (P : Position) (p : ColoredPiece) : Square :=
  (P.piecePos p).headD ⟨0, by decide⟩

/-- `Position::is_in_check` (position.cpp:668). -/
def is_in_check (P : Position) (side : Color) : Bool :=
  let king_sq := P.piece_position (side, PieceKind.king)
  pawn_attacks (square_bb king_sq) side &&& P.piecesCK side.other PieceKind.pawn ≠ 0 ∨
  KNIGHT_MASK king_sq &&& P.piecesCK side.other PieceKind.knight ≠ 0 ∨
  slider_attack PieceKind.bishop king_sq P.pieces &&&
    P.piecesCKK side.other PieceKind.bishop PieceKind.queen ≠ 0 ∨
  slider_attack PieceKind.rook king_sq P.pieces &&&
    P.piecesCKK side.other PieceKind.rook PieceKind.queen ≠ 0

/-- `Position::is_legal` (position.cpp:258). -/
def is_legal (P : Position) : Bool :=
  ¬((P.piecePos (Color.white, PieceKind.king)).length ≠ 1 ∨
    (P.piecePos (Color.black, PieceKind.king)).length ≠ 1 ∨
    KING_MASK (P.piece_position (Color.white, PieceKind.king)) &&&
      square_bb (P.piece_position (Color.black, PieceKind.king)) ≠ 0 ∨
    (P.side = Color.white ∧ P.is_in_check Color.black) ∨
    (P.side = Color.black ∧ P.is_in_check Color.white))

/-- `Position::square_attackers` (position.cpp:764). -/
def square_attackers (P : Position) (sq : Square) (c : Color) : Bitboard :=
  let a := no_squares_bb
  let a := a ||| (pawn_attacks (square_bb sq) c.other &&& P.piecesCK c PieceKind.pawn)
  let a := a ||| (KNIGHT_MASK sq &&& P.piecesCK c PieceKind.knight)
  let a := a ||| (slider_attack PieceKind.bishop sq P.pieces &&&
    P.piecesCKK c PieceKind.bishop PieceKind.queen)
  let a := a ||| (slider_attack PieceKind.rook sq P.pieces &&&
    P.piecesCKK c PieceKind.rook PieceKind.queen)
  let a := a ||| (KING_MASK sq &&& P.piecesCK c PieceKind.king)
  a

end Position

/-- Modelled from the spec: endgame piece values (`PIECE_VALUE[..].eg` from
the missing value header), standard centipawn-scale values; only their
relative order matters to the claims proved here.  `none` is
`NO_PIECE_KIND`, whose table slot the source reads when the target square
is empty; it scores 0. -/
def pieceValueEg : Option PieceKind → Int
  | none => 0
  | some .pawn => 100
  | some .knight => 300
  | some .bishop => 300
  | some .rook => 500
  | some .queen => 900
  | some .king => 20000

/-- The fixed kind order `{PAWN, KNIGHT, BISHOP, ROOK, QUEEN, KING}` used by
`see`'s attacker-selection loop. -/
def seeKinds : List PieceKind :=
  [.pawn, .knight, .bishop, .rook, .queen, .king]

/-- Lowest set square of a bitboard (`pop_lsb`). -/
def lsbSq (b : Bitboard) : Square :=
  (((List.finRange 64).find? fun i => b.testBit i.val)).getD ⟨0, by decide⟩

namespace Position

/-- The inner selection of `see`'s loop (position.cpp:738-750): first kind in
order with an attacker still in `occupied`, lowest square of that kind. -/
def seePickAttacker (P : Position) (att occupied : Bitboard) (side : Color) :
    Option (PieceKind × Square) :=
  seeKinds.findSome? fun pk =>
    let temp := att &&& P.piecesCK side pk &&& occupied
    if temp ≠ 0 then some (pk, lsbSq temp) else none

/-- The swap loop of `see` (position.cpp:729-751), with fuel: each iteration
removes one attacker; 33 iterations cover any position's 32 pieces (the
source's own `pks[32]` bound).  Returns the gain-stack tail. -/
def seeLoop (P : Position) : Nat → Color → (Color → Bitboard) → Bitboard →
    Option PieceKind → List (Option PieceKind)
  | 0, _, _, _, _ => []
  | fuel + 1, side, att, occupied, current =>
    let side := side.other
    if att side = 0 then []
    else
      match P.seePickAttacker (att side) occupied side with
      | none => []
      | some (pk, sq) =>
        current ::
          P.seeLoop fuel side
            (fun c => if c = side then att side &&& bbNot (square_bb sq) else att c)
            (occupied &&& bbNot (square_bb sq)) (some pk)

/-- The final minimax fold of `see` (position.cpp:753-761). -/
def seeFold (gains : List (Option PieceKind)) : Int :=
  match gains with
  | [] => 0
  | g0 :: rest =>
    pieceValueEg g0 - rest.foldr (fun pk value => max 0 (pieceValueEg pk - value)) 0

/-- `Position::see` (position.cpp:709). -/
def see (P : Position) (m : Move) : Int :=
  let from_sq := m.fromSq
  let to_sq := m.toSq
  let side := P.side
  let current := (P.board from_sq).map Prod.snd
  let occupied := P.pieces &&& bbNot (square_bb from_sq ||| square_bb to_sq)
  let att0 : Color → Bitboard := fun c => P.square_attackers to_sq c
  let att : Color → Bitboard := fun c =>
    if c = side then att0 c &&& bbNot (square_bb from_sq) else att0 c
  let gains := ((P.board to_sq).map Prod.snd) :: P.seeLoop 33 side att occupied current
  seeFold gains

end Position

/-- `hash_position` (hash_position.cpp): from-scratch recomputation; the
en-passant subkey enters only when a pawn of the side to move attacks the
en-passant square. -/
def allColoredPieces : List ColoredPiece :=
  [(.white, .pawn), (.white, .knight), (.white, .bishop), (.white, .rook),
   (.white, .queen), (.white, .king),
   (.black, .pawn), (.black, .knight), (.black, .bishop), (.black, .rook),
   (.black, .queen), (.black, .king)]

def hash_position (T : ZTab) (P : Position) : Nat :=
  let key : Nat :=
    allColoredPieces.foldl
      (fun key p => (P.piecePos p).foldl (fun key sq => key ^^^ T.piece p sq) key) 0
  let key := if P.castlingRights &&& W_OO ≠ 0 then key ^^^ T.castlingWS else key
  let key := if P.castlingRights &&& W_OOO ≠ 0 then key ^^^ T.castlingWL else key
  let key := if P.castlingRights &&& B_OO ≠ 0 then key ^^^ T.castlingBS else key
  let key := if P.castlingRights &&& B_OOO ≠ 0 then key ^^^ T.castlingBL else key
  let key :=
    match P.epSquare with
    | none => key
    | some ep =>
      if pawn_attacks (square_bb ep) P.side.other &&& P.piecesCK P.side PieceKind.pawn ≠ 0 then
        key ^^^ T.ep (fileOf ep)
      else key
  if P.side = Color.white then key ^^^ T.turn else key

/-! ### Draw detection (position.cpp:217-256) -/

namespace Position

def rule50 (P : Position) : Bool := 100 ≤ P.halfMove

/-- The early-exit scan of `threefold_repetition` (position.cpp:222), walking
entries `_history[_history_counter-2] .. _history[0]` with a running count
that starts at 1. -/
def threefoldLoop (key : Nat) : List Nat → Nat → Bool
  | [], _ => false
  | k :: rest, count =>
    if k = key then
      if count + 1 = 3 then true else threefoldLoop key rest (count + 1)
    else threefoldLoop key rest count

def threefold_repetition (P : Position) : Bool :=
  threefoldLoop P.zobrist.get_key P.history.dropLast.reverse 1

/-- `_piece_count[p]` (maintained alongside the piece list). -/
def piece_count (P : Position) (p : ColoredPiece) : Nat := (P.piecePos p).length

/-- `get_pcv` / `create_pcv`: the ten non-king piece counts (the packed
`PieceCountVector` of the missing header, modelled as a tuple — the packing
is injective on board-realizable counts). -/
def get_pcv (P : Position) : Nat × Nat × Nat × Nat × Nat × Nat × Nat × Nat × Nat × Nat :=
  (P.piece_count (.white, .pawn), P.piece_count (.white, .knight),
   P.piece_count (.white, .bishop), P.piece_count (.white, .rook),
   P.piece_count (.white, .queen), P.piece_count (.black, .pawn),
   P.piece_count (.black, .knight), P.piece_count (.black, .bishop),
   P.piece_count (.black, .rook), P.piece_count (.black, .queen))

/-- The `notEnoughMaterialPCV` table of `enough_material` (position.cpp:245):
only kings; a lone black knight; a lone black bishop; a lone white knight;
a lone white bishop. -/
def notEnoughMaterialPCV : List (Nat × Nat × Nat × Nat × Nat × Nat × Nat × Nat × Nat × Nat) :=
  [(0, 0, 0, 0, 0, 0, 0, 0, 0, 0),
   (0, 0, 0, 0, 0, 0, 1, 0, 0, 0),
   (0, 0, 0, 0, 0, 0, 0, 1, 0, 0),
   (0, 1, 0, 0, 0, 0, 0, 0, 0, 0),
   (0, 0, 1, 0, 0, 0, 0, 0, 0, 0)]

/-- `Position::enough_material` (position.cpp:243). -/
def enough_material (P : Position) : Bool :=
  !(notEnoughMaterialPCV.contains P.get_pcv)

/-- `Position::is_draw` (position.cpp:217). -/
def is_draw (P : Position) : Bool :=
  P.rule50 ∨ P.threefold_repetition ∨ ¬P.enough_material

/-- `Position::operator==` (position.cpp:148): hash key, side, castling
rights, en-passant square and the 64-entry board only. -/
def posEq (P Q : Position) : Bool :=
  P.zobrist.get_key = Q.zobrist.get_key ∧
  P.side = Q.side ∧
  P.castlingRights = Q.castlingRights ∧
  P.epSquare = Q.epSquare ∧
  ∀ sq : Square, P.board sq = Q.board sq

end Position

/-! ### FEN emission and parsing (position.cpp:51-118 and 161-215)

The C++ parser pulls whitespace-separated tokens off an `istringstream`; we
model the input as its token list (`tokenize`).  All string processing is
done on `List Char`. -/

def pieceChar : ColoredPiece → Char
  | (.white, .pawn) => 'P'
  | (.white, .knight) => 'N'
  | (.white, .bishop) => 'B'
  | (.white, .rook) => 'R'
  | (.white, .queen) => 'Q'
  | (.white, .king) => 'K'
  | (.black, .pawn) => 'p'
  | (.black, .knight) => 'n'
  | (.black, .bishop) => 'b'
  | (.black, .rook) => 'r'
  | (.black, .queen) => 'q'
  | (.black, .king) => 'k'

def charToPiece (c : Char) : Piece :=
  if c = 'P' then some (.white, .pawn)
  else if c = 'N' then some (.white, .knight)
  else if c = 'B' then some (.white, .bishop)
  else if c = 'R' then some (.white, .rook)
  else if c = 'Q' then some (.white, .queen)
  else if c = 'K' then some (.white, .king)
  else if c = 'p' then some (.black, .pawn)
  else if c = 'n' then some (.black, .knight)
  else if c = 'b' then some (.black, .bishop)
  else if c = 'r' then some (.black, .rook)
  else if c = 'q' then some (.black, .queen)
  else if c = 'k' then some (.black, .king)
  else none

namespace Position

/-- One rank of `fen()`'s run-length board emission (the counter flushes at
each piece and at the rank end). -/
def fenRankChars (P : Position) (r : Fin 8) : List Char :=
  let step : List Char × Nat → Fin 8 → List Char × Nat := fun acc f =>
    match P.board (mkSq r f) with
    | none => (acc.1, acc.2 + 1)
    | some p =>
      (acc.1 ++ (if acc.2 > 0 then [Char.ofNat (48 + acc.2)] else []) ++ [pieceChar p], 0)
  let res := (List.finRange 8).foldl step ([], 0)
  res.1 ++ (if res.2 > 0 then [Char.ofNat (48 + res.2)] else [])

def fenBoardChars (P : Position) : List Char :=
  (List.intercalate ['/']
    (((List.finRange 8).reverse).map fun r => P.fenRankChars r))

def fenCastlingChars (P : Position) : List Char :=
  if P.castlingRights ≠ NO_CASTLING then
    (if P.castlingRights &&& W_OO ≠ 0 then ['K'] else []) ++
    (if P.castlingRights &&& W_OOO ≠ 0 then ['Q'] else []) ++
    (if P.castlingRights &&& B_OO ≠ 0 then ['k'] else []) ++
    (if P.castlingRights &&& B_OOO ≠ 0 then ['q'] else [])
  else ['-']

def fenEpChars (P : Position) : List Char :=
  match P.epSquare with
  | some sq => [Char.ofNat (97 + (fileOf sq).val), Char.ofNat (49 + (rankOf sq).val)]
  | none => ['-']

/-- `Position::fen` (position.cpp:161) as a character list. -/
def fenChars (P : Position) : List Char :=
  P.fenBoardChars ++ [' '] ++
  (if P.side = Color.white then ['w'] else ['b']) ++ [' '] ++
  P.fenCastlingChars ++ [' '] ++
  P.fenEpChars ++ [' '] ++
  (Nat.repr P.halfMove).data ++ [' '] ++
  (Nat.repr ((P.ply - 1) / 2 + 1)).data

def fen (P : Position) : String := String.mk P.fenChars

end Position

/-- `istringstream >> token` extraction: maximal runs of non-whitespace. -/
def tokenize (cs : List Char) : List (List Char) :=
  (cs.splitOnP fun c => c.isWhitespace).filter (· ≠ [])

/-- A position with cleared state, as at the top of the FEN constructor
(position.cpp:51-59). -/
def emptyPos : Position :=
  { board := fun _ => none
    byColor := fun _ => 0
    byKind := fun _ => 0
    piecePos := fun _ => []
    side := .white
    castlingRights := NO_CASTLING
    epSquare := none
    halfMove := 0
    ply := 0
    zobrist := ⟨0, 0, 0, 0, 0⟩
    history := [] }

/-- Piece placement as done inline by the parsers (position.cpp:80-87):
board, occupancy bitboards and piece list, no hashing yet. -/
def placePiece (P : Position) (p : ColoredPiece) (sq : Square) : Position :=
  { P with
    board := Function.update P.board sq (some p)
    byColor := Function.update P.byColor p.1 (P.byColor p.1 ||| square_bb sq)
    byKind := Function.update P.byKind p.2 (P.byKind p.2 ||| square_bb sq)
    piecePos := Function.update P.piecePos p (P.piecePos p ++ [sq]) }

/-- `HashKey::init` (zobrist_hash.cpp): from-scratch subkeys; the en-passant
subkey is set unconditionally whenever the square is set. -/
def HashKey.init (T : ZTab) (P : Position) : HashKey :=
  let color_key := if P.side = Color.white then 0 ^^^ T.turn else 0
  let pawn_key :=
    [Color.white, Color.black].foldl
      (fun key c =>
        (P.piecePos (c, PieceKind.pawn)).foldl
          (fun key sq => key ^^^ T.piece (c, PieceKind.pawn) sq) key) 0
  let piece_key :=
    [Color.white, Color.black].foldl
      (fun key c =>
        [PieceKind.knight, .bishop, .rook, .queen, .king].foldl
          (fun key pk =>
            (P.piecePos (c, pk)).foldl (fun key sq => key ^^^ T.piece (c, pk) sq) key)
          key) 0
  let castling_key := HashKey.castKeyOf T P.castlingRights
  let enpassant_key :=
    match P.epSquare with
    | none => 0
    | some sq => T.ep (fileOf sq)
  ⟨piece_key, pawn_key, enpassant_key, castling_key, color_key⟩

/-- The board-placement loop of the FEN constructor (position.cpp:71-88).
The running square index is a C++ `int`; out-of-range placements (possible
only for malformed input) are dropped. -/
def parseBoardChars (P : Position) (sq : Int) : List Char → Position
  | [] => P
  | c :: rest =>
    if c = '/' then parseBoardChars P (sq - 16) rest
    else if '0' ≤ c ∧ c ≤ '9' then parseBoardChars P (sq + (c.toNat - 48)) rest
    else
      match charToPiece c with
      | some p =>
        if h : 0 ≤ sq ∧ sq < 64 then
          parseBoardChars (placePiece P p ⟨sq.toNat, by omega⟩) (sq + 1) rest
        else parseBoardChars P (sq + 1) rest
      | none => parseBoardChars P (sq + 1) rest

def parseCastlingChars (c0 : Castling) : List Char → Castling
  | [] => c0
  | c :: rest =>
    parseCastlingChars
      (if c = 'K' then c0 ||| W_OO
       else if c = 'Q' then c0 ||| W_OOO
       else if c = 'k' then c0 ||| B_OO
       else if c = 'q' then c0 ||| B_OOO
       else c0) rest

/-- `notationToSquare` (position.cpp:18); the subtractions wrap mod 8 to
totalize the C++ int-to-enum narrowing (in range for well-formed input). -/
def notationToSquare (t : List Char) : Square :=
  let f := ((t.getD 0 'a').toNat - 97) % 8
  let r := ((t.getD 1 '1').toNat - 49) % 8
  mkSq ⟨r, Nat.mod_lt _ (by omega)⟩ ⟨f, Nat.mod_lt _ (by omega)⟩

/-- `istream >> int`: read the leading digit run (0 when there is none). -/
def natOfToken (t : List Char) : Nat :=
  (t.takeWhile fun c => '0' ≤ c ∧ c ≤ '9').foldl (fun n c => n * 10 + (c.toNat - 48)) 0

/-- `Position::Position(std::string fen)` (position.cpp:51), on the token
list of the input. -/
def parseFenTokens (T : ZTab) (toks : List (List Char)) : Position :=
  let P := emptyPos
  let P := parseBoardChars P 56 (toks.getD 0 [])
  let P := { P with side := if (toks.getD 1 []) = ['w'] then Color.white else Color.black }
  let P := { P with castlingRights := parseCastlingChars NO_CASTLING (toks.getD 2 []) }
  let P := { P with epSquare :=
    if (toks.getD 3 []) = ['-'] then none else some (notationToSquare (toks.getD 3 [])) }
  let P := { P with halfMove := natOfToken (toks.getD 4 []) % 256 }
  let fullmove := natOfToken (toks.getD 5 [])
  let P := { P with ply := 2 * fullmove - 1 + (if P.side = Color.black then 1 else 0) }
  let P := { P with zobrist := HashKey.init T P }
  { P with history := [P.zobrist.get_key] }

def Position.fromFen (T : ZTab) (s : String) : Position :=
  parseFenTokens T (tokenize s.data)

def STARTPOS_FEN : String := "rnbqkbnr/pppppppp/8/8/8/8/PPPPPPPP/RNBQKBNR w KQkq - 0 1"

/-- `Position::Position(const std::vector<std::pair<Piece, Square>>&)`
(position.cpp:120). -/
def Position.ofPieces (T : ZTab) (pieces : List (ColoredPiece × Square)) : Position :=
  let P := emptyPos
  let P := pieces.foldl (fun P pr => placePiece P pr.1 pr.2) P
  let P := { P with halfMove := 0, ply := 1 }
  let P := { P with zobrist := HashKey.init T P }
  { P with history := [P.zobrist.get_key] }

/-! ### Concrete Zobrist tables for witnesses -/

def pieceIdx (p : ColoredPiece) : Nat :=
  (match p.1 with | .white => 0 | .black => 6) +
  (match p.2 with | .pawn => 0 | .knight => 1 | .bishop => 2 | .rook => 3
                  | .queen => 4 | .king => 5)

/-- A concrete table with independent (power-of-two) constants, used to
instantiate universally-quantified theorems at concrete inputs. -/
def T0 : ZTab :=
  { piece := fun p sq => 2 ^ (64 * pieceIdx p + sq.val)
    castlingWS := 2 ^ 768
    castlingWL := 2 ^ 769
    castlingBS := 2 ^ 770
    castlingBL := 2 ^ 771
    ep := fun f => 2 ^ (772 + f.val)
    turn := 2 ^ 780 }

/-- The all-zero table (hash values never influence board evolution, so it
serves wherever only board state matters). -/
def Tz : ZTab :=
  { piece := fun _ _ => 0
    castlingWS := 0
    castlingWL := 0
    castlingBS := 0
    castlingBL := 0
    ep := fun _ => 0
    turn := 0 }

/-! ### Move generation

Modelled from the spec: `movegen.cpp` is missing from the sources.  Spec
§4.5: pseudo-legal candidates per piece kind from occupancy and attack
tables — pawn pushes, double pushes (second rank, both squares empty),
captures including en passant, promotions (one per {N,B,R,Q}); castling
only when the right is set, the squares between king and rook are empty,
and the king's current, crossed and landing squares are unattacked — then
filtered for self-check by making the move and rolling back (spec §9). -/

def squaresOf (bb : Bitboard) : List Square :=
  (List.finRange 64).filter fun sq => bb.testBit sq.val

def targetsToMoves (f : Square) (bb : Bitboard) : List Move :=
  (squaresOf bb).map (create_move f)

def promoKinds : List PieceKind := [.knight, .bishop, .rook, .queen]

def pawnDir (c : Color) : Int := if c = Color.white then 1 else -1

def lastRank (c : Color) : Int := if c = Color.white then 7 else 0

def pawnPushMoves (P : Position) (side : Color) (sq : Square) : List Move :=
  let r : Int := (rankOf sq).val
  let f : Int := (fileOf sq).val
  match toSq (r + pawnDir side) f with
  | none => []
  | some t1 =>
    if P.board t1 = none then
      (if (r + pawnDir side) = lastRank side then
        promoKinds.map fun pk => create_promotion sq t1 (some pk)
      else [create_move sq t1]) ++
      (if r = (if side = Color.white then 1 else 6) then
        match toSq (r + 2 * pawnDir side) f with
        | some t2 => if P.board t2 = none then [create_move sq t2] else []
        | none => []
      else [])
    else []

def pawnCaptureMoves (P : Position) (side : Color) (sq : Square) : List Move :=
  let r : Int := (rankOf sq).val
  let f : Int := (fileOf sq).val
  ([-1, 1] : List Int).flatMap fun df =>
    match toSq (r + pawnDir side) (f + df) with
    | none => []
    | some t =>
      match P.board t with
      | some (c, _) =>
        if c = side.other then
          if (r + pawnDir side) = lastRank side then
            promoKinds.map fun pk => create_promotion sq t (some pk)
          else [create_move sq t]
        else []
      | none => if P.epSquare = some t then [create_move sq t] else []

/-- "Is `sq` attacked by a piece of color `c`" for castling generation. -/
def Position.sqAttacked (P : Position) (sq : Square) (c : Color) : Bool :=
  P.square_attackers sq c ≠ 0

def castlingGenMoves (P : Position) : List Move :=
  let side := P.side
  let r := Position.homeRank side
  let e := mkSq r Position.sq4
  (if P.castlingRights &&& (CASTLING_RIGHTS side &&& KING_CASTLING) ≠ 0 ∧
      P.board (mkSq r Position.sq5) = none ∧ P.board (mkSq r Position.sq6) = none ∧
      ¬P.sqAttacked e side.other ∧ ¬P.sqAttacked (mkSq r Position.sq5) side.other ∧
      ¬P.sqAttacked (mkSq r Position.sq6) side.other then
    [KING_CASTLING_MOVE]
  else []) ++
  (if P.castlingRights &&& (CASTLING_RIGHTS side &&& QUEEN_CASTLING) ≠ 0 ∧
      P.board (mkSq r ⟨1, by decide⟩) = none ∧ P.board (mkSq r Position.sq2) = none ∧
      P.board (mkSq r Position.sq3) = none ∧
      ¬P.sqAttacked e side.other ∧ ¬P.sqAttacked (mkSq r Position.sq3) side.other ∧
      ¬P.sqAttacked (mkSq r Position.sq2) side.other then
    [QUEEN_CASTLING_MOVE]
  else [])

def pseudoMoves (P : Position) : List Move :=
  let side := P.side
  let own := P.byColor side
  ((List.finRange 64).flatMap fun sq =>
    match P.board sq with
    | some (c, k) =>
      if c ≠ side then []
      else
        match k with
        | .pawn => pawnPushMoves P side sq ++ pawnCaptureMoves P side sq
        | .knight => targetsToMoves sq (KNIGHT_MASK sq &&& bbNot own)
        | .king => targetsToMoves sq (KING_MASK sq &&& bbNot own)
        | .bishop => targetsToMoves sq (slider_attack .bishop sq P.pieces &&& bbNot own)
        | .rook => targetsToMoves sq (slider_attack .rook sq P.pieces &&& bbNot own)
        | .queen => targetsToMoves sq (slider_attack .queen sq P.pieces &&& bbNot own)
    | none => []) ++ castlingGenMoves P

/-- `generate_moves`: pseudo-legal generation filtered by playing the move
and testing whether the mover's king is left in check. -/
def generate_moves (P : Position) : List Move :=
  (pseudoMoves P).filter fun m => ¬(Position.do_move Tz P m).1.is_in_check P.side

/-! ### UCI and SAN parsing (position.cpp:807-906) -/

namespace Position

/-- `Position::parse_uci` (position.cpp:807).  The `throw` on an unknown
promotion character is modelled as `Except.error`. -/
def parse_uci (P : Position) (s : String) : Except String Move :=
  let str := s.data
  let fromSq := mkSq ⟨((str.getD 1 '1').toNat - 49) % 8, Nat.mod_lt _ (by omega)⟩
    ⟨((str.getD 0 'a').toNat - 97) % 8, Nat.mod_lt _ (by omega)⟩
  let toSq := mkSq ⟨((str.getD 3 '1').toNat - 49) % 8, Nat.mod_lt _ (by omega)⟩
    ⟨((str.getD 2 'a').toNat - 97) % 8, Nat.mod_lt _ (by omega)⟩
  let promoE : Except String (Option PieceKind) :=
    if str.length > 4 then
      let c := str.getD 4 ' '
      if c = 'n' ∨ c = 'N' then .ok (some .knight)
      else if c = 'b' ∨ c = 'B' then .ok (some .bishop)
      else if c = 'r' ∨ c = 'R' then .ok (some .rook)
      else if c = 'q' ∨ c = 'Q' then .ok (some .queen)
      else .error "Unknown promotion piece"
    else .ok none
  match promoE with
  | .error e => .error e
  | .ok promotion =>
    let move := create_promotion fromSq toSq promotion
    let isKing := (P.board fromSq).map Prod.snd = some PieceKind.king
    let move :=
      if isKing ∧ fromSq = (⟨4, by decide⟩ : Square) ∧ toSq = (⟨6, by decide⟩ : Square) then
        create_castling KING_CASTLING
      else move
    let move :=
      if isKing ∧ fromSq = (⟨4, by decide⟩ : Square) ∧ toSq = (⟨2, by decide⟩ : Square) then
        create_castling QUEEN_CASTLING
      else move
    let move :=
      if isKing ∧ fromSq = (⟨60, by decide⟩ : Square) ∧ toSq = (⟨62, by decide⟩ : Square) then
        create_castling KING_CASTLING
      else move
    let move :=
      if isKing ∧ fromSq = (⟨60, by decide⟩ : Square) ∧ toSq = (⟨58, by decide⟩ : Square) then
        create_castling QUEEN_CASTLING
      else move
    .ok move

end Position

/-- Greedy optional single-character match with backtracking, the behaviour
of `std::regex` on a `[..]?` group. -/
def matchOpt (p : Char → Bool) (cs : List Char)
    (k : Option Char → List Char → Option α) : Option α :=
  (match cs with
   | c :: rest => if p c then k (some c) rest else none
   | [] => none) <|> k none cs

def charIn (s : String) (c : Char) : Bool := s.data.contains c

/-- A faithful matcher for `Position::SAN_REGEX`
`([NBRQK]?)([a-h]?)([1-8]?)x?([a-h][1-8])=?([nbrqkNBRQK]?)[+#]?`
(anchored, as used with `std::regex_match`), returning the five capture
groups. -/
def sanRegexMatch (cs : List Char) :
    Option (Option Char × Option Char × Option Char × (Char × Char) × Option Char) :=
  matchOpt (charIn "NBRQK") cs fun g1 cs =>
  matchOpt (fun c => 'a' ≤ c ∧ c ≤ 'h') cs fun g2 cs =>
  matchOpt (fun c => '1' ≤ c ∧ c ≤ '8') cs fun g3 cs =>
  matchOpt (fun c => c = 'x') cs fun _ cs =>
  match cs with
  | c4a :: c4b :: cs =>
    if ('a' ≤ c4a ∧ c4a ≤ 'h') ∧ ('1' ≤ c4b ∧ c4b ≤ '8') then
      matchOpt (fun c => c = '=') cs fun _ cs =>
      matchOpt (charIn "nbrqkNBRQK") cs fun g5 cs =>
      matchOpt (fun c => c = '+' ∨ c = '#') cs fun _ cs =>
      if cs = [] then some (g1, g2, g3, (c4a, c4b), g5) else none
    else none
  | _ => none

/-- The `parse_piece_kind` lambda of `parse_san` (position.cpp:864). -/
def parsePieceKindChar : Option Char → PieceKind
  | some c =>
    if c = 'n' ∨ c = 'N' then .knight
    else if c = 'b' ∨ c = 'B' then .bishop
    else if c = 'r' ∨ c = 'R' then .rook
    else if c = 'q' ∨ c = 'Q' then .queen
    else if c = 'k' ∨ c = 'K' then .king
    else .pawn
  | none => .pawn

namespace Position

/-- The per-move match test of `parse_san`'s loop (position.cpp:891-895). -/
def sanMatches (P : Position) (moved : PieceKind) (ff fr : Option (Fin 8))
    (tsq : Square) (pr : Option PieceKind) (m : Move) : Bool :=
  (P.board m.fromSq).map Prod.snd = some moved ∧
  (∀ x, ff = some x → fileOf m.fromSq = x) ∧
  (∀ x, fr = some x → rankOf m.fromSq = x) ∧
  m.toSq = tsq ∧
  (∀ x, pr = some x → m.promo = some x)

/-- `File(c - 'a')` as used by the SAN parser (wrapped mod 8 to totalize the
narrowing; in range for matched input). -/
def sanFile (c : Char) : Fin 8 := ⟨(c.toNat - 97) % 8, Nat.mod_lt _ (by omega)⟩

/-- `Rank(c - '1')` as used by the SAN parser. -/
def sanRank (c : Char) : Fin 8 := ⟨(c.toNat - 49) % 8, Nat.mod_lt _ (by omega)⟩

def sanToSquare (c4a c4b : Char) : Square := mkSq (sanRank c4b) (sanFile c4a)

/-- The match-counting loop of `parse_san` (position.cpp:886-900): the last
matching move and the number of matches. -/
def sanCountLoop (p : Move → Bool) (moves : List Move) : Move × Nat :=
  moves.foldl (fun acc m => if p m then (m, acc.2 + 1) else acc) ((NO_MOVE, 0) : Move × Nat)

/-- `Position::parse_san` (position.cpp:849). -/
def parse_san (P : Position) (s : String) : Move :=
  let moves := generate_moves P
  if s = "0-0" ∨ s = "O-O" then
    if moves.contains KING_CASTLING_MOVE then KING_CASTLING_MOVE else NO_MOVE
  else if s = "0-0-0" ∨ s = "O-O-O" then
    if moves.contains QUEEN_CASTLING_MOVE then QUEEN_CASTLING_MOVE else NO_MOVE
  else
    match sanRegexMatch s.data with
    | none => NO_MOVE
    | some (g1, g2, g3, (c4a, c4b), g5) =>
      let moved_piece := parsePieceKindChar g1
      let from_file : Option (Fin 8) := g2.map sanFile
      let from_rank : Option (Fin 8) := g3.map sanRank
      let to_square : Square := sanToSquare c4a c4b
      let promotion_piece_kind : Option PieceKind := g5.map fun c => parsePieceKindChar (some c)
      if promotion_piece_kind = some PieceKind.pawn ∨
          promotion_piece_kind = some PieceKind.king then
        NO_MOVE
      else
        let res := sanCountLoop
          (fun m => P.sanMatches moved_piece from_file from_rank to_square
            promotion_piece_kind m) moves
        if res.2 ≠ 1 then NO_MOVE else res.1

end Position

/-! ### The β-cutoff block of `Search::search` (search.cpp:360-371) -/

/-- The members of `SearchInfo` the cutoff block touches.  Modelled from the
spec (§4.7) where the header is missing: killer table `[2][MAX_PLIES]`,
history `[2][64][64]`, PV hint map keyed by Zobrist. -/
structure SearchInfo where
  ply : Nat
  killers : Nat → Move × Move
  history : Color × Square × Square → Nat
  pv : Nat → Option Move

namespace SearchInfo

/-- Modelled from the spec: "two slots per ply, new killer replaces slot 0
only if distinct" (§4.7). -/
def update_killers (i : SearchInfo) (ply : Nat) (m : Move) : SearchInfo :=
  let slots := i.killers ply
  let slots := if slots.1 ≠ m then (m, slots.1) else slots
  { i with killers := Function.update i.killers ply slots }

/-- Modelled from the spec: history "incremented by `d` on a β-cutoff by a
quiet move" (§4.7). -/
def update_history (i : SearchInfo) (c : Color) (f t : Square) (d : Nat) : SearchInfo :=
  { i with history := Function.update i.history (c, f, t) (i.history (c, f, t) + d) }

def update_pv (i : SearchInfo) (key : Nat) (m : Move) : SearchInfo :=
  { i with pv := Function.update i.pv key (some m) }

end SearchInfo

/-- Result of the cutoff block when it fires. -/
structure CutoffResult where
  info : SearchInfo
  movelist : List Move
  ret : Int

/-- The `if (result >= beta)` block of `Search::search` (search.cpp:360-371),
evaluated in the restored position `P` (the code runs it after
`undo_move`): update killers/history iff the destination square is empty,
record the PV move, return β.  `none` when the cutoff does not fire. -/
def cutoffStep (P : Position) (m : Move) (depth : Nat) (result beta : Int)
    (info : SearchInfo) (temp_movelist : List Move) : Option CutoffResult :=
  if result ≥ beta then
    let info :=
      if P.piece_at m.toSq = none then
        (info.update_killers info.ply m).update_history P.side m.fromSq m.toSq depth
      else info
    some ⟨info.update_pv P.hash m, temp_movelist ++ [m], beta⟩
  else none

/-! ### The spec's swap-off algorithm with X-ray reveal (spec §4.4) -/

/-- Attackers of `sq` for color `c` computed against occupancy `occ` (sliders
see through removed pieces), restricted to `occ`. -/
def Position.square_attackers_occ (P : Position) (sq : Square) (c : Color)
    (occ : Bitboard) : Bitboard :=
  ((pawn_attacks (square_bb sq) c.other &&& P.piecesCK c PieceKind.pawn) |||
   (KNIGHT_MASK sq &&& P.piecesCK c PieceKind.knight) |||
   (slider_attack PieceKind.bishop sq occ &&&
     P.piecesCKK c PieceKind.bishop PieceKind.queen) |||
   (slider_attack PieceKind.rook sq occ &&&
     P.piecesCKK c PieceKind.rook PieceKind.queen) |||
   (KING_MASK sq &&& P.piecesCK c PieceKind.king)) &&& occ

/-- The spec's swap loop: like `seeLoop`, but the attacker set is recomputed
against the shrinking occupancy each round, so X-ray attackers are
revealed as pieces are removed (spec §4.4). -/
def Position.seeSpecLoop (P : Position) : Nat → Color → Square → Bitboard →
    Option PieceKind → List (Option PieceKind)
  | 0, _, _, _, _ => []
  | fuel + 1, side, to_sq, occ, current =>
    let side := side.other
    let att := P.square_attackers_occ to_sq side occ
    if att = 0 then []
    else
      match P.seePickAttacker att occ side with
      | none => []
      | some (pk, sq) =>
        current :: P.seeSpecLoop fuel side to_sq (occ &&& bbNot (square_bb sq)) (some pk)

/-- The spec's SEE (§4.4): swap-off with lowest-valued-attacker selection
(ties by kind order then lowest square), X-ray reveal, gain stack, and
side-oriented minimax with the first capture forced. -/
def Position.seeSpecXray (P : Position) (m : Move) : Int :=
  let from_sq := m.fromSq
  let to_sq := m.toSq
  let side := P.side
  let current := (P.board from_sq).map Prod.snd
  let occ := P.pieces &&& bbNot (square_bb from_sq ||| square_bb to_sq)
  let gains := ((P.board to_sq).map Prod.snd) :: P.seeSpecLoop 33 side to_sq occ current
  Position.seeFold gains

/-- The spec's swap-off algorithm without the X-ray clause: the attacker sets
are those of the initial occupancy, never re-extended; attackers leave play
as the occupancy shrinks. -/
def Position.seeSpecNoXrayLoop (P : Position) (att0 : Color → Bitboard) :
    Nat → Color → Bitboard → Option PieceKind → List (Option PieceKind)
  | 0, _, _, _ => []
  | fuel + 1, side, occ, current =>
    let side := side.other
    let att := att0 side &&& occ
    if att = 0 then []
    else
      match P.seePickAttacker att occ side with
      | none => []
      | some (pk, sq) =>
        current :: P.seeSpecNoXrayLoop att0 fuel side (occ &&& bbNot (square_bb sq)) (some pk)

def Position.seeSpecNoXray (P : Position) (m : Move) : Int :=
  let from_sq := m.fromSq
  let to_sq := m.toSq
  let side := P.side
  let current := (P.board from_sq).map Prod.snd
  let occ := P.pieces &&& bbNot (square_bb from_sq ||| square_bb to_sq)
  let att0 : Color → Bitboard := fun c =>
    if c = side then P.square_attackers to_sq c &&& bbNot (square_bb from_sq)
    else P.square_attackers to_sq c
  let gains := ((P.board to_sq).map Prod.snd) :: P.seeSpecNoXrayLoop att0 33 side occ current
  Position.seeFold gains

/-! ### Well-formedness invariants -/

/-- Board/bitboard/piece-list consistency (spec §3 invariant 1): each
occupancy bit and each piece-list membership agrees with the board array,
and the piece lists are duplicate-free. -/
def Coh (P : Position) : Prop :=
  (∀ (c : Color) (sq : Square), (P.byColor c).testBit sq.val ↔ ∃ pk, P.board sq = some (c, pk)) ∧
  (∀ (pk : PieceKind) (sq : Square),
    (P.byKind pk).testBit sq.val ↔ ∃ c, P.board sq = some (c, pk)) ∧
  (∀ (p : ColoredPiece) (sq : Square), sq ∈ P.piecePos p ↔ P.board sq = some p) ∧
  (∀ p : ColoredPiece, (P.piecePos p).Nodup)

instance (P : Position) : Decidable (Coh P) := by unfold Coh; infer_instance

/-- The en-passant subkey an en-passant state corresponds to (the engine
sets it unconditionally whenever the square is set). -/
def epKeyOf (T : ZTab) : Option Square → Nat
  | none => 0
  | some sq => T.ep (fileOf sq)

/-- The castling and en-passant subkeys agree with the current rights and
en-passant square (maintained by every constructor and update path). -/
def KeyCoh (T : ZTab) (P : Position) : Prop :=
  P.zobrist.castling_key = HashKey.castKeyOf T P.castlingRights ∧
  P.zobrist.enpassant_key = epKeyOf T P.epSquare

instance (T : ZTab) (P : Position) : Decidable (KeyCoh T P) := by
  unfold KeyCoh; infer_instance

/-- Scalar-field well-formedness: 4-bit castling rights, 8-bit half-move
counter. -/
def Ok (P : Position) : Prop :=
  Coh P ∧ P.castlingRights < 16 ∧ P.halfMove < 256

instance (P : Position) : Decidable (Ok P) := by unfold Ok; infer_instance

/-- What legal-move generation guarantees about a non-castling move
(spec §4.4/§4.5): the mover's own piece stands on `from`; `from ≠ to`; the
target holds no own piece; promotions move pawns; an en-passant capture
(a pawn to the en-passant square) targets an empty square and takes an
enemy pawn from the adjacent square. -/
def nonCastleOk (P : Position) (m : Move) : Prop :=
  ∃ pk, P.board m.fromSq = some (P.side, pk) ∧
    m.fromSq ≠ m.toSq ∧
    (∀ q, P.board m.toSq = some q → q.1 = P.side.other) ∧
    (m.promo ≠ none → pk = PieceKind.pawn) ∧
    (pk = PieceKind.pawn ∧ P.epSquare = some m.toSq →
      P.board m.toSq = none ∧
      P.board (Position.epCapSq P.side m.toSq) = some (P.side.other, PieceKind.pawn) ∧
      Position.epCapSq P.side m.toSq ≠ m.fromSq ∧ Position.epCapSq P.side m.toSq ≠ m.toSq ∧
      m.promo = none)

/-- What legal-move generation guarantees about a castling move: the right
kind tag, king and rook on their home squares, the crossed squares empty. -/
def castleOk (P : Position) (m : Move) : Prop :=
  (m.castle = KING_CASTLING ∨ m.castle = QUEEN_CASTLING) ∧
  P.board (mkSq (Position.homeRank P.side) Position.sq4) = some (P.side, PieceKind.king) ∧
  (m.castle = KING_CASTLING →
    P.board (mkSq (Position.homeRank P.side) Position.sq7) = some (P.side, PieceKind.rook) ∧
    P.board (mkSq (Position.homeRank P.side) Position.sq5) = none ∧
    P.board (mkSq (Position.homeRank P.side) Position.sq6) = none) ∧
  (m.castle = QUEEN_CASTLING →
    P.board (mkSq (Position.homeRank P.side) Position.sq0) = some (P.side, PieceKind.rook) ∧
    P.board (mkSq (Position.homeRank P.side) Position.sq2) = none ∧
    P.board (mkSq (Position.homeRank P.side) Position.sq3) = none)

/-- Legality facts about `m` in `P` used by the do/undo round trip. -/
def MoveOk (P : Position) (m : Move) : Prop :=
  (m.castle = NO_CASTLING → nonCastleOk P m) ∧ (m.castle ≠ NO_CASTLING → castleOk P m)

instance (P : Position) (m : Move) : Decidable (nonCastleOk P m) := by
  unfold nonCastleOk; infer_instance

instance (P : Position) (m : Move) : Decidable (castleOk P m) := by
  unfold castleOk; infer_instance

instance (P : Position) (m : Move) : Decidable (MoveOk P m) := by
  unfold MoveOk; infer_instance

/-- King home square (E1 / E8). -/
def kingHome (c : Color) : Square := mkSq (Position.homeRank c) Position.sq4

/-- When castling rights of color `c` are set, that color's king stands
exactly on its home square (true of every reachable position; FEN setups
violating it are outside the spec's "legal position"). -/
def KingRightsCoh (P : Position) : Prop :=
  ∀ c : Color, P.castlingRights &&& CASTLING_RIGHTS c ≠ 0 →
    ∀ sq : Square, P.board sq = some (c, PieceKind.king) ↔ sq = kingHome c

instance (P : Position) : Decidable (KingRightsCoh P) := by
  unfold KingRightsCoh; infer_instance

/-- The four individual rights with their owners and rook home squares. -/
def rightOwner (r : Castling) : Color :=
  if r = W_OO ∨ r = W_OOO then Color.white else Color.black

def rookHome (r : Castling) : Square :=
  if r = W_OO then KING_SIDE_ROOK_SQUARE Color.white
  else if r = W_OOO then QUEEN_SIDE_ROOK_SQUARE Color.white
  else if r = B_OO then KING_SIDE_ROOK_SQUARE Color.black
  else QUEEN_SIDE_ROOK_SQUARE Color.black

/-- The clearing condition of claim C4 for one right `r`: the corresponding
king (including by castling) or rook moves from its home square, or an
opponent's rook is captured on its home square. -/
def claimClears (P : Position) (m : Move) (r : Castling) : Prop :=
  (rightOwner r = P.side ∧
    (m.castle ≠ NO_CASTLING ∨
      (P.board m.fromSq = some (P.side, PieceKind.king) ∧ m.fromSq = kingHome P.side))) ∨
  (rightOwner r = P.side ∧ m.castle = NO_CASTLING ∧
    P.board m.fromSq = some (P.side, PieceKind.rook) ∧ m.fromSq = rookHome r) ∨
  (rightOwner r = P.side.other ∧ m.castle = NO_CASTLING ∧
    P.board m.toSq = some (P.side.other, PieceKind.rook) ∧ m.toSq = rookHome r)

/-- Full Zobrist coherence: the stored subkeys equal the from-scratch
`HashKey::init` recomputation (with its unconditional en-passant subkey) —
the invariant every constructor establishes and every incremental update
maintains. -/
def ZobristCoh (T : ZTab) (P : Position) : Prop :=
  P.zobrist = HashKey.init T P

/-! ### Concrete positions and states for witnesses and counterexamples -/

/-- Start position parsed with the concrete table. -/
def startPos : Position := Position.fromFen T0 STARTPOS_FEN

def mvE2E4 : Move := create_move ⟨12, by decide⟩ ⟨28, by decide⟩

/-- Start position after 1.e4 (a reachable position whose en-passant square
is set while no black pawn can capture onto it). -/
def posAfterE4 : Position := (Position.do_move T0 startPos mvE2E4).1

/-- Spec §8 scenario 5 position with a half-move clock of 5. -/
def posCastleRights : Position :=
  Position.fromFen T0 "r3k2r/8/8/8/8/8/8/R3K2R w KQkq - 5 1"

def mvA1A2 : Move := create_move ⟨0, by decide⟩ ⟨8, by decide⟩

/-- Spec §8 scenario 6 en-passant position (white can play e5xf6 e.p.). -/
def posEpCapture : Position :=
  Position.fromFen T0 "rnbqkbnr/ppp1p1pp/8/3pPp2/8/8/PPPP1PPP/RNBQKBNR w KQkq f6 0 3"

def mvE5F6 : Move := create_move ⟨36, by decide⟩ ⟨45, by decide⟩

/-- Rook battery for the SEE X-ray counterexample: white Rd1, Rd2, Ke1
against black Pd7, Rd8, Kh8; `Rd2xd7` loses the exchange without X-ray
but wins a pawn with it. -/
def posSeeBattery : Position :=
  Position.fromFen T0 "3r3k/3p4/8/8/8/8/3R4/3RK3 w - - 0 1"

def mvRd2xd7 : Move := create_move ⟨11, by decide⟩ ⟨51, by decide⟩

/-- Two black knights (a8 listed before c8) whose list order a capture
round-trip perturbs. -/
def posTwoKnights : Position :=
  Position.fromFen T0 "n1n5/8/8/8/8/8/8/R3K2k w - - 0 1"

def mvRxa8 : Move := create_move ⟨0, by decide⟩ ⟨56, by decide⟩

/-- An all-empty search-info state. -/
def info0 : SearchInfo :=
  ⟨0, fun _ => (NO_MOVE, NO_MOVE), fun _ => 0, fun _ => none⟩

instance (T : ZTab) (P : Position) : Decidable (ZobristCoh T P) := by
  unfold ZobristCoh; infer_instance



/-! ### FEN round-trip infrastructure (C3) -/

/-- The run-length emission of one rank, as a recursion over the cell list
(`k` pending empty squares carried from the left). -/
def emitCells : List Piece → Nat → List Char
  | [], k => if k > 0 then [Char.ofNat (48 + k)] else []
  | none :: cs, k => emitCells cs (k + 1)
  | some p :: cs, k =>
    (if k > 0 then [Char.ofNat (48 + k)] else []) ++ pieceChar p :: emitCells cs 0

/-- The cells of rank `r`, file 0 to file 7. -/
def rankCells (P : Position) (r : Fin 8) : List Piece :=
  (List.finRange 8).map fun f => P.board (mkSq r f)

/-- Sequential placement of a cell list from square `sq` upwards, with the
same out-of-range guard as `parseBoardChars`. -/
def placeCells : Position → Int → List Piece → Position
  | Q, _, [] => Q
  | Q, sq, none :: cs => placeCells Q (sq + 1) cs
  | Q, sq, some p :: cs =>
    placeCells
      (if h : 0 ≤ sq ∧ sq < 64 then placePiece Q p ⟨sq.toNat, by omega⟩ else Q)
      (sq + 1) cs

/-- The result of the FEN board-placement loop on `fenBoardChars`: the eight
ranks placed top rank first. -/
def parsedRanks (P : Position) : Position :=
  placeCells (placeCells (placeCells (placeCells (placeCells (placeCells (placeCells
    (placeCells emptyPos 56 (rankCells P 7)) 48 (rankCells P 6)) 40 (rankCells P 5))
    32 (rankCells P 4)) 24 (rankCells P 3)) 16 (rankCells P 2)) 8 (rankCells P 1))
    0 (rankCells P 0)

/-! ## Theorems -/

set_option maxRecDepth 40000

namespace Position

section FieldPreservation

variable (T : ZTab) (P : Position) (p : ColoredPiece) (sq f t : Square)

@[simp] theorem add_piece_side : (P.add_piece T p sq).side = P.side := rfl
@[simp] theorem add_piece_castlingRights :
    (P.add_piece T p sq).castlingRights = P.castlingRights := rfl
@[simp] theorem add_piece_epSquare : (P.add_piece T p sq).epSquare = P.epSquare := rfl
@[simp] theorem add_piece_halfMove : (P.add_piece T p sq).halfMove = P.halfMove := rfl
@[simp] theorem add_piece_ply : (P.add_piece T p sq).ply = P.ply := rfl
@[simp] theorem add_piece_history : (P.add_piece T p sq).history = P.history := rfl

@[simp] theorem remove_piece_side : (P.remove_piece T sq).side = P.side := by
  unfold Position.remove_piece; split <;> rfl
@[simp] theorem remove_piece_castlingRights :
    (P.remove_piece T sq).castlingRights = P.castlingRights := by
  unfold Position.remove_piece; split <;> rfl
@[simp] theorem remove_piece_epSquare : (P.remove_piece T sq).epSquare = P.epSquare := by
  unfold Position.remove_piece; split <;> rfl
@[simp] theorem remove_piece_halfMove : (P.remove_piece T sq).halfMove = P.halfMove := by
  unfold Position.remove_piece; split <;> rfl
@[simp] theorem remove_piece_ply : (P.remove_piece T sq).ply = P.ply := by
  unfold Position.remove_piece; split <;> rfl
@[simp] theorem remove_piece_history : (P.remove_piece T sq).history = P.history := by
  unfold Position.remove_piece; split <;> rfl

@[simp] theorem move_piece_side : (P.move_piece T f t).side = P.side := by
  unfold Position.move_piece; split <;> rfl
@[simp] theorem move_piece_castlingRights :
    (P.move_piece T f t).castlingRights = P.castlingRights := by
  unfold Position.move_piece; split <;> rfl
@[simp] theorem move_piece_epSquare : (P.move_piece T f t).epSquare = P.epSquare := by
  unfold Position.move_piece; split <;> rfl
@[simp] theorem move_piece_halfMove : (P.move_piece T f t).halfMove = P.halfMove := by
  unfold Position.move_piece; split <;> rfl
@[simp] theorem move_piece_ply : (P.move_piece T f t).ply = P.ply := by
  unfold Position.move_piece; split <;> rfl
@[simp] theorem move_piece_history : (P.move_piece T f t).history = P.history := by
  unfold Position.move_piece; split <;> rfl

@[simp] theorem doCastleMoves_side (side c) : (doCastleMoves T P side c).side = P.side := by
  unfold doCastleMoves; split <;> simp
@[simp] theorem doCastleMoves_castlingRights (side c) :
    (doCastleMoves T P side c).castlingRights = P.castlingRights := by
  unfold doCastleMoves; split <;> simp
@[simp] theorem doCastleMoves_epSquare (side c) :
    (doCastleMoves T P side c).epSquare = P.epSquare := by
  unfold doCastleMoves; split <;> simp
@[simp] theorem doCastleMoves_halfMove (side c) :
    (doCastleMoves T P side c).halfMove = P.halfMove := by
  unfold doCastleMoves; split <;> simp
@[simp] theorem doCastleMoves_ply (side c) : (doCastleMoves T P side c).ply = P.ply := by
  unfold doCastleMoves; split <;> simp
@[simp] theorem doCastleMoves_history (side c) :
    (doCastleMoves T P side c).history = P.history := by
  unfold doCastleMoves; split <;> simp

@[simp] theorem setEpAfterMove_side (side mk m) :
    (setEpAfterMove T P side mk m).side = P.side := by
  unfold setEpAfterMove; split <;> rfl
@[simp] theorem setEpAfterMove_castlingRights (side mk m) :
    (setEpAfterMove T P side mk m).castlingRights = P.castlingRights := by
  unfold setEpAfterMove; split <;> rfl
@[simp] theorem setEpAfterMove_halfMove (side mk m) :
    (setEpAfterMove T P side mk m).halfMove = P.halfMove := by
  unfold setEpAfterMove; split <;> rfl
@[simp] theorem setEpAfterMove_ply (side mk m) :
    (setEpAfterMove T P side mk m).ply = P.ply := by
  unfold setEpAfterMove; split <;> rfl
@[simp] theorem setEpAfterMove_history (side mk m) :
    (setEpAfterMove T P side mk m).history = P.history := by
  unfold setEpAfterMove; split <;> rfl
@[simp] theorem setEpAfterMove_board (side mk m) :
    (setEpAfterMove T P side mk m).board = P.board := by
  unfold setEpAfterMove; split <;> rfl

@[simp] theorem set_enpassant_square_side (e) : (P.set_enpassant_square e).side = P.side := rfl
@[simp] theorem set_enpassant_square_castlingRights (e) :
    (P.set_enpassant_square e).castlingRights = P.castlingRights := rfl
@[simp] theorem set_enpassant_square_halfMove (e) :
    (P.set_enpassant_square e).halfMove = P.halfMove := rfl
@[simp] theorem set_enpassant_square_ply (e) : (P.set_enpassant_square e).ply = P.ply := rfl
@[simp] theorem set_enpassant_square_history (e) :
    (P.set_enpassant_square e).history = P.history := rfl
@[simp] theorem set_enpassant_square_board (e) :
    (P.set_enpassant_square e).board = P.board := rfl
@[simp] theorem set_enpassant_square_byColor (e) :
    (P.set_enpassant_square e).byColor = P.byColor := rfl
@[simp] theorem set_enpassant_square_byKind (e) :
    (P.set_enpassant_square e).byKind = P.byKind := rfl
@[simp] theorem set_enpassant_square_piecePos (e) :
    (P.set_enpassant_square e).piecePos = P.piecePos := rfl
@[simp] theorem set_enpassant_square_zobrist (e) :
    (P.set_enpassant_square e).zobrist = P.zobrist := rfl
@[simp] theorem set_enpassant_square_epSquare (e) :
    (P.set_enpassant_square e).epSquare = e := rfl

end FieldPreservation

end Position

/-- C10: `operator==` compares only the composed Zobrist key, the side to
move, the castling rights, the en-passant square and the 64-entry board;
two positions that differ only in their half-move counter, ply counter or
history compare equal. -/
theorem c10_posEq_ignores_counters :
    (∀ (P : Position) (hm pl : Nat) (hist : List Nat),
      Position.posEq { P with halfMove := hm, ply := pl, history := hist } P = true) ∧
    (∀ P Q : Position, Position.posEq P Q = true ↔
      (P.zobrist.get_key = Q.zobrist.get_key ∧ P.side = Q.side ∧
       P.castlingRights = Q.castlingRights ∧ P.epSquare = Q.epSquare ∧
       ∀ sq : Square, P.board sq = Q.board sq)) := by
  constructor
  · intro P hm pl hist
    simp [Position.posEq]
  · intro P Q
    simp [Position.posEq]

/-- C2: the incrementally maintained key and `hash_position` diverge on the
reachable position after 1.e4 from the start position: `do_move` sets the
en-passant file subkey unconditionally, while `hash_position` includes it
only when a pawn of the side to move attacks the en-passant square (no
black pawn attacks e3 here), so the keys differ by exactly that subkey. -/
theorem c2_incremental_scratch_divergence :
    posAfterE4.epSquare = some ⟨20, by decide⟩ ∧
    posAfterE4.hash = hash_position T0 posAfterE4 ^^^ T0.ep ⟨4, by decide⟩ ∧
    posAfterE4.hash ≠ hash_position T0 posAfterE4 := by
  refine ⟨by decide, by decide, ?_⟩
  decide

/-- The early-exit repetition scan counts correctly: starting from a running
count `cnt ≤ 2`, it reports `true` exactly when the total reaches three. -/
theorem threefoldLoop_true_iff (key : Nat) :
    ∀ (l : List Nat) (cnt : Nat), cnt ≤ 2 →
      (Position.threefoldLoop key l cnt = true ↔ 3 ≤ cnt + l.count key) := by
  intro l
  induction l with
  | nil =>
    intro cnt h
    simp [Position.threefoldLoop]
    omega
  | cons k rest ih =>
    intro cnt h
    have e : Position.threefoldLoop key (k :: rest) cnt =
        (if k = key then
          (if cnt + 1 = 3 then true else Position.threefoldLoop key rest (cnt + 1))
         else Position.threefoldLoop key rest cnt) := rfl
    rw [e]
    rcases eq_or_ne k key with hk | hk
    · subst hk
      rw [if_pos rfl]
      rcases eq_or_ne (cnt + 1) 3 with h3 | h3
      · rw [if_pos h3]
        simp [List.count_cons]
        omega
      · rw [if_neg h3, ih (cnt + 1) (by omega)]
        simp [List.count_cons]
        omega
    · rw [if_neg hk, ih cnt h]
      simp [List.count_cons, hk, Ne.symm hk]


/-- C6: `is_draw` is exactly "fifty-move rule or threefold repetition or
insufficient material", with the repetition test "the current key occurs at
least twice among the earlier history entries" and insufficient material
exactly the closed set {K vs K, K+N vs K, K+B vs K} (the extra minor on
either side). -/
theorem c6_is_draw_characterization (P : Position) :
    (P.is_draw = true ↔
      (100 ≤ P.halfMove ∨
       2 ≤ P.history.dropLast.count P.zobrist.get_key ∨
       (P.piece_count (.white, .pawn) = 0 ∧ P.piece_count (.black, .pawn) = 0 ∧
        P.piece_count (.white, .rook) = 0 ∧ P.piece_count (.black, .rook) = 0 ∧
        P.piece_count (.white, .queen) = 0 ∧ P.piece_count (.black, .queen) = 0 ∧
        P.piece_count (.white, .knight) + P.piece_count (.white, .bishop) +
          P.piece_count (.black, .knight) + P.piece_count (.black, .bishop) ≤ 1))) ∧
    (P.enough_material = false ↔
      (P.piece_count (.white, .pawn) = 0 ∧ P.piece_count (.black, .pawn) = 0 ∧
       P.piece_count (.white, .rook) = 0 ∧ P.piece_count (.black, .rook) = 0 ∧
       P.piece_count (.white, .queen) = 0 ∧ P.piece_count (.black, .queen) = 0 ∧
       P.piece_count (.white, .knight) + P.piece_count (.white, .bishop) +
         P.piece_count (.black, .knight) + P.piece_count (.black, .bishop) ≤ 1)) := by
  have hrep : P.threefold_repetition = true ↔
      2 ≤ P.history.dropLast.count P.zobrist.get_key := by
    unfold Position.threefold_repetition
    rw [threefoldLoop_true_iff P.zobrist.get_key _ 1 (by omega)]
    rw [List.count_reverse]
    omega
  have hmat : P.enough_material = false ↔
      (P.piece_count (.white, .pawn) = 0 ∧ P.piece_count (.black, .pawn) = 0 ∧
       P.piece_count (.white, .rook) = 0 ∧ P.piece_count (.black, .rook) = 0 ∧
       P.piece_count (.white, .queen) = 0 ∧ P.piece_count (.black, .queen) = 0 ∧
       P.piece_count (.white, .knight) + P.piece_count (.white, .bishop) +
         P.piece_count (.black, .knight) + P.piece_count (.black, .bishop) ≤ 1) := by
    have hc : P.enough_material = false ↔ P.get_pcv ∈ Position.notEnoughMaterialPCV := by
      unfold Position.enough_material
      simp [List.contains, List.elem_eq_mem]
    rw [hc]
    unfold Position.get_pcv Position.notEnoughMaterialPCV
    simp only [List.mem_cons, List.not_mem_nil, or_false, Prod.mk.injEq]
    constructor
    · rintro (h | h | h | h | h) <;> omega
    · intro h
      omega
  constructor
  · unfold Position.is_draw Position.rule50
    simp only [Bool.or_eq_true, decide_eq_true_eq, Bool.not_eq_true]
    rw [hrep]
    rw [hmat]
  · exact hmat

/-- C5 as stated is false: castling also resets the half-move counter. In
the spec's own castling-rights position with the clock at 5, the (legal)
move O-O is neither a pawn move nor a capture, yet `do_move` sets the
counter to 0 rather than 6. -/
theorem c5_counterexample :
    posCastleRights.halfMove = 5 ∧
    (KING_CASTLING_MOVE ∈ generate_moves posCastleRights) ∧
    KING_CASTLING_MOVE.castle ≠ NO_CASTLING ∧
    (Position.do_move T0 posCastleRights KING_CASTLING_MOVE).1.halfMove = 0 := by
  refine ⟨by decide, by decide, by decide, by decide⟩

/-- C5 amended: `do_move` resets the half-move counter exactly on pawn
moves, captures and castling moves, and otherwise increments it (as the
8-bit counter, i.e. mod 256); the history count always grows by one. -/
theorem c5_amended (T : ZTab) (P : Position) (m : Move) :
    (Position.do_move T P m).1.halfMove =
      (if m.castle ≠ NO_CASTLING ∨ (P.board m.fromSq).map Prod.snd = some PieceKind.pawn ∨
          P.board m.toSq ≠ none
       then 0 else (P.halfMove + 1) % 256) ∧
    (Position.do_move T P m).1.history.length = P.history.length + 1 := by
  unfold Position.do_move
  dsimp only [Position.change_current_side]
  constructor
  · split_ifs with h1 h2 h3 h4 h5 h6 h7 h8 h9 h10 <;>
      rcases m.promo with _ | pk <;>
        simp_all [Option.map_eq_none']
  · split_ifs with h1 h2 h3 h4 h5 h6 h7 <;>
      rcases m.promo with _ | pk <;>
        simp_all [Option.map_eq_none']

@[simp] theorem SearchInfo.update_pv_history (i : SearchInfo) (k : Nat) (m : Move) :
    (i.update_pv k m).history = i.history := rfl

@[simp] theorem SearchInfo.update_pv_killers (i : SearchInfo) (k : Nat) (m : Move) :
    (i.update_pv k m).killers = i.killers := rfl

@[simp] theorem SearchInfo.update_history_killers (i : SearchInfo) (c f t d) :
    (SearchInfo.update_history i c f t d).killers = i.killers := rfl

@[simp] theorem SearchInfo.update_killers_history (i : SearchInfo) (ply m) :
    (SearchInfo.update_killers i ply m).history = i.history := rfl

/-- C8 amended: on a β-cutoff the killer and history tables are updated iff
the destination square of the (encoded) move is empty in the restored
position — which is also the case for en-passant captures — with the
history entry for `(side, from, to)` increased by exactly `depth` and no
other entry changed; β is returned and the move appended to the PV line. -/
theorem c8_amended (P : Position) (m : Move) (depth : Nat) (result beta : Int)
    (info : SearchInfo) (lst : List Move) (h : beta ≤ result) :
    ∃ r, cutoffStep P m depth result beta info lst = some r ∧
      r.ret = beta ∧ r.movelist = lst ++ [m] ∧
      (∀ x, r.info.history x = info.history x +
        (if P.piece_at m.toSq = none ∧ x = (P.side, m.fromSq, m.toSq) then depth else 0)) ∧
      (P.piece_at m.toSq ≠ none → r.info.killers = info.killers) ∧
      (P.piece_at m.toSq = none → ∀ n, n ≠ info.ply → r.info.killers n = info.killers n) ∧
      (P.piece_at m.toSq = none → r.info.killers info.ply =
        (if (info.killers info.ply).1 ≠ m then (m, (info.killers info.ply).1)
         else info.killers info.ply)) := by
  unfold cutoffStep
  rw [if_pos h]
  by_cases hq : P.piece_at m.toSq = none
  · rw [if_pos hq]
    refine ⟨_, rfl, rfl, rfl, ?_, ?_, ?_, ?_⟩
    · intro x
      simp only [SearchInfo.update_pv_history, SearchInfo.update_history, hq, true_and]
      rcases eq_or_ne x (P.side, m.fromSq, m.toSq) with hx | hx
      · subst hx
        simp [Function.update]
      · simp [Function.update, hx]
    · intro hc
      exact absurd hq hc
    · intro _ n hn
      simp only [SearchInfo.update_pv_killers, SearchInfo.update_history_killers,
        SearchInfo.update_killers]
      simp [Function.update, hn]
    · intro _
      simp only [SearchInfo.update_pv_killers, SearchInfo.update_history_killers,
        SearchInfo.update_killers]
      simp [Function.update]
  · rw [if_neg hq]
    refine ⟨_, rfl, rfl, rfl, ?_, ?_, ?_, ?_⟩
    · intro x
      simp [hq]
    · intro _
      rfl
    · intro hc
      exact absurd hc hq
    · intro hc
      exact absurd hc hq

theorem c8_amended_witness :
    (cutoffStep startPos mvE2E4 1 0 0 info0 []).isSome = true := by
  obtain ⟨r, hr, -⟩ := c8_amended startPos mvE2E4 1 0 0 info0 [] (by decide)
  rw [hr]
  rfl

/-- C8 as stated is false: the code's test is only "destination square
empty", so an en-passant capture — not quiet under the claim's definition —
also updates the killer/history tables.  Concretely, on a cutoff for the
legal en-passant capture e5xf6 the history entry rises from 0 to depth. -/
theorem c8_counterexample :
    (mvE5F6 ∈ generate_moves posEpCapture) ∧
    posEpCapture.epSquare = some mvE5F6.toSq ∧
    (posEpCapture.board mvE5F6.fromSq).map Prod.snd = some PieceKind.pawn ∧
    info0.history (posEpCapture.side, mvE5F6.fromSq, mvE5F6.toSq) = 0 ∧
    ((cutoffStep posEpCapture mvE5F6 3 0 0 info0 []).map fun r =>
      r.info.history (posEpCapture.side, mvE5F6.fromSq, mvE5F6.toSq)).getD 0 = 3 := by
  refine ⟨by decide, by decide, by decide, by decide, by decide⟩

theorem do_move_castlingRights_eq (T : ZTab) (P : Position) (m : Move) :
    (Position.do_move T P m).1.castlingRights =
      (if m.castle ≠ NO_CASTLING then P.castlingRights &&& castNot (CASTLING_RIGHTS P.side)
       else if (P.board m.fromSq).map Prod.snd = some PieceKind.pawn ∧
           some m.toSq = P.epSquare then P.castlingRights
       else Position.updateCastlingRights P.side ((P.board m.fromSq).map Prod.snd)
         ((P.board m.toSq).map Prod.snd) m P.castlingRights) := by
  unfold Position.do_move
  dsimp only [Position.change_current_side]
  split_ifs with h1 h2 h3 <;>
    rcases m.promo with _ | pk <;>
      simp_all

theorem do_move_castlingRights_castle (T : ZTab) (P : Position) (m : Move)
    (h : m.castle ≠ NO_CASTLING) :
    (Position.do_move T P m).1.castlingRights =
      P.castlingRights &&& castNot (CASTLING_RIGHTS P.side) := by
  rw [do_move_castlingRights_eq, if_pos h]

theorem do_move_castlingRights_ep (T : ZTab) (P : Position) (m : Move)
    (hc : m.castle = NO_CASTLING)
    (hep : (P.board m.fromSq).map Prod.snd = some PieceKind.pawn ∧
      some m.toSq = P.epSquare) :
    (Position.do_move T P m).1.castlingRights = P.castlingRights := by
  rw [do_move_castlingRights_eq, if_neg (by simp [hc]), if_pos hep]

theorem do_move_castlingRights_normal (T : ZTab) (P : Position) (m : Move)
    (hc : m.castle = NO_CASTLING)
    (hep : ¬((P.board m.fromSq).map Prod.snd = some PieceKind.pawn ∧
      some m.toSq = P.epSquare)) :
    (Position.do_move T P m).1.castlingRights =
      Position.updateCastlingRights P.side ((P.board m.fromSq).map Prod.snd)
        ((P.board m.toSq).map Prod.snd) m P.castlingRights := by
  rw [do_move_castlingRights_eq, if_neg (by simp [hc]), if_neg hep]

theorem lor_eq_zero_iff' (a b : Nat) : a ||| b = 0 ↔ a = 0 ∧ b = 0 := by
  constructor
  · intro h
    constructor <;> apply Nat.eq_of_testBit_eq <;> intro i <;>
      · have := congrArg (fun x => Nat.testBit x i) h
        simp only [Nat.testBit_lor, Nat.zero_testBit, Bool.or_eq_false_iff] at this
        simp [this]
  · rintro ⟨rfl, rfl⟩
    rfl

theorem castNot_testBit (a i : Nat) :
    (castNot a).testBit i = (decide (i < 4) && !a.testBit i) := by
  have h15 : (15 : Nat) = 2 ^ 4 - 1 := by norm_num
  simp only [castNot, Nat.testBit_xor, Nat.testBit_land, h15, Nat.testBit_two_pow_sub_one]
  cases h : a.testBit i <;> by_cases hi : i < 4 <;> simp [hi]

theorem land_castNot_castNot (x a b : Nat) :
    (x &&& castNot a) &&& castNot b = x &&& castNot (a ||| b) := by
  apply Nat.eq_of_testBit_eq
  intro i
  simp only [Nat.testBit_land, castNot_testBit, Nat.testBit_lor]
  cases x.testBit i <;> cases a.testBit i <;> cases b.testBit i <;>
    by_cases hi : i < 4 <;> simp [hi]

theorem land_fifteen_self (x : Nat) (h : x < 16) : x &&& 15 = x := by
  have h15 : (15 : Nat) = 2 ^ 4 - 1 := by norm_num
  rw [h15]
  exact Nat.and_pow_two_sub_one_of_lt_two_pow (by omega)

theorem land_two_pow_eq_zero_iff (c k : Nat) :
    c &&& 2 ^ k = 0 ↔ c.testBit k = false := by
  constructor
  · intro h
    have := congrArg (fun x => Nat.testBit x k) h
    simpa [Nat.testBit_land] using this
  · intro h
    apply Nat.eq_of_testBit_eq
    intro i
    simp only [Nat.testBit_land, Nat.testBit_two_pow, Nat.zero_testBit]
    rcases eq_or_ne k i with rfl | hki
    · simp [h]
    · simp [hki]

theorem land_castNot_two_pow (c M k : Nat) (hk : k < 4) :
    ((c &&& castNot M) &&& 2 ^ k = 0) ↔ (M.testBit k = true ∨ c.testBit k = false) := by
  rw [land_two_pow_eq_zero_iff]
  simp only [Nat.testBit_land, castNot_testBit, hk, decide_True, Bool.true_and]
  cases c.testBit k <;> cases M.testBit k <;> simp

theorem updateCastlingRights_eq (side : Color) (mk cap : Option PieceKind) (m : Move)
    (c : Nat) (hc : c < 16) :
    Position.updateCastlingRights side mk cap m c =
      c &&& castNot (Position.clearMask side mk cap m) := by
  have hnot0 : ∀ x : Nat, x < 16 → x &&& castNot 0 = x := by
    intro x hx
    have h0 : castNot 0 = 15 := by decide
    rw [h0, land_fifteen_self x hx]
  unfold Position.updateCastlingRights Position.clearMask
  split_ifs <;>
    simp_all [land_castNot_castNot, Nat.or_zero, Nat.zero_or, hnot0, hc]

theorem lor_land_ne_zero (a b r : Nat) : ((a ||| b) &&& r ≠ 0) ↔ (a &&& r ≠ 0 ∨ b &&& r ≠ 0) := by
  have h : (a ||| b) &&& r = (a &&& r) ||| (b &&& r) := by
    apply Nat.eq_of_testBit_eq
    intro i
    simp only [Nat.testBit_land, Nat.testBit_lor]
    cases a.testBit i <;> cases b.testBit i <;> cases r.testBit i <;> simp
  rw [h, ne_eq, lor_eq_zero_iff']
  tauto

theorem ite_land_ne_zero (c : Prop) [Decidable c] (a r : Nat) :
    ((if c then a else 0) &&& r ≠ 0) ↔ (c ∧ a &&& r ≠ 0) := by
  split_ifs with h <;> simp [h]

theorem clears_iff (c M : Nat) (r : Nat) (hr : r ∈ [W_OO, W_OOO, B_OO, B_OOO]) :
    ((c &&& castNot M) &&& r = 0 ↔ (M &&& r ≠ 0 ∨ c &&& r = 0)) := by
  fin_cases hr
  · rw [show (W_OO : Nat) = 2 ^ 0 by decide, land_castNot_two_pow _ _ 0 (by omega)]
    simp only [ne_eq, land_two_pow_eq_zero_iff]
    cases h : M.testBit 0 <;> simp [h]
  · rw [show (W_OOO : Nat) = 2 ^ 1 by decide, land_castNot_two_pow _ _ 1 (by omega)]
    simp only [ne_eq, land_two_pow_eq_zero_iff]
    cases h : M.testBit 1 <;> simp [h]
  · rw [show (B_OO : Nat) = 2 ^ 2 by decide, land_castNot_two_pow _ _ 2 (by omega)]
    simp only [ne_eq, land_two_pow_eq_zero_iff]
    cases h : M.testBit 2 <;> simp [h]
  · rw [show (B_OOO : Nat) = 2 ^ 3 by decide, land_castNot_two_pow _ _ 3 (by omega)]
    simp only [ne_eq, land_two_pow_eq_zero_iff]
    cases h : M.testBit 3 <;> simp [h]

theorem land_mono_four (c r R : Nat) (hrR : r = R &&& r) (hset : c &&& r ≠ 0) :
    c &&& R ≠ 0 := by
  intro h0
  apply hset
  rw [hrR, ← Nat.land_assoc, h0, Nat.zero_and]

theorem clearMask_ne_zero_iff (side : Color) (mk cap : Option PieceKind) (m : Move)
    (r : Nat) :
    (Position.clearMask side mk cap m &&& r ≠ 0) ↔
      ((mk = some PieceKind.king ∧ CASTLING_RIGHTS side &&& r ≠ 0) ∨
       ((mk = some PieceKind.rook ∧ m.fromSq = KING_SIDE_ROOK_SQUARE side) ∧
         (CASTLING_RIGHTS side &&& KING_CASTLING) &&& r ≠ 0) ∨
       ((mk = some PieceKind.rook ∧ m.fromSq = QUEEN_SIDE_ROOK_SQUARE side) ∧
         (CASTLING_RIGHTS side &&& QUEEN_CASTLING) &&& r ≠ 0) ∨
       ((cap = some PieceKind.rook ∧ m.toSq = KING_SIDE_ROOK_SQUARE side.other) ∧
         (CASTLING_RIGHTS side.other &&& KING_CASTLING) &&& r ≠ 0) ∨
       ((cap = some PieceKind.rook ∧ m.toSq = QUEEN_SIDE_ROOK_SQUARE side.other) ∧
         (CASTLING_RIGHTS side.other &&& QUEEN_CASTLING) &&& r ≠ 0)) := by
  unfold Position.clearMask
  simp only [lor_land_ne_zero, ite_land_ne_zero]
  tauto


set_option maxHeartbeats 2000000 in
/-- C4: `do_move` clears a castling right exactly when the corresponding
king or rook moves from its home square or an opponent's rook is captured
on its home square (and never grants a right); in the spec's scenario
position, Ra1-a2 drops exactly `W_OOO` from the full rights set.  The
universal part assumes the reachable-position coherences: 4-bit rights,
and rights only set while the owner's king is on its home square. -/
theorem c4_castling_rights (T : ZTab) (P : Position) (m : Move)
    (hlt : P.castlingRights < 16) (hkr : KingRightsCoh P) (hmv : MoveOk P m) :
    (∀ r ∈ [W_OO, W_OOO, B_OO, B_OOO],
      ((P.castlingRights &&& r ≠ 0 ∧
        (Position.do_move T P m).1.castlingRights &&& r = 0) ↔
        (claimClears P m r ∧ P.castlingRights &&& r ≠ 0)) ∧
      ((Position.do_move T P m).1.castlingRights &&& r ≠ 0 →
        P.castlingRights &&& r ≠ 0)) ∧
    posCastleRights.castlingRights = ALL_CASTLING ∧
    (mvA1A2 ∈ generate_moves posCastleRights) ∧
    (Position.do_move T0 posCastleRights mvA1A2).1.castlingRights =
      (W_OO ||| B_OO ||| B_OOO) := by
  refine ⟨?_, by decide, by decide, by decide⟩
  intro r hr
  have hr4 : r = W_OO ∨ r = W_OOO ∨ r = B_OO ∨ r = B_OOO := by simpa using hr
  by_cases hc : m.castle = NO_CASTLING
  · obtain ⟨pk, hfrom, hne, hcapcol, hpr, hepc⟩ := hmv.1 hc
    by_cases hep : (P.board m.fromSq).map Prod.snd = some PieceKind.pawn ∧
        some m.toSq = P.epSquare
    · -- en-passant capture: rights untouched, no claim condition holds
      have hM0 := do_move_castlingRights_ep T P m hc hep
      have hpkpawn : pk = PieceKind.pawn := by
        rw [hfrom] at hep
        simpa using hep.1
      obtain ⟨hto_none, hcapsq, hcsf, hcst, hprn⟩ := hepc ⟨hpkpawn, hep.2.symm⟩
      have hclaim : ¬claimClears P m r := by
        unfold claimClears
        rw [hfrom, hpkpawn, hto_none]
        simp [hc]
      rw [hM0]
      constructor
      · constructor
        · rintro ⟨h1, h2⟩
          exact absurd h2 h1
        · rintro ⟨h1, -⟩
          exact absurd h1 hclaim
      · exact fun h => h
    · -- ordinary branch
      have hM0 := do_move_castlingRights_normal T P m hc hep
      rw [updateCastlingRights_eq _ _ _ _ _ hlt] at hM0
      have hmk : (P.board m.fromSq).map Prod.snd = some pk := by rw [hfrom]; rfl
      have hcaprook : ((P.board m.toSq).map Prod.snd = some PieceKind.rook) ↔
          P.board m.toSq = some (P.side.other, PieceKind.rook) := by
        constructor
        · intro h
          match hq : P.board m.toSq with
          | none => rw [hq] at h; simp at h
          | some q =>
            have hcol := hcapcol q hq
            rw [hq] at h
            cases q
            simp_all
        · intro h
          rw [h]
          rfl
      have hmain : P.castlingRights &&& r ≠ 0 →
          ((Position.clearMask P.side ((P.board m.fromSq).map Prod.snd)
            ((P.board m.toSq).map Prod.snd) m &&& r ≠ 0) ↔ claimClears P m r) := by
        intro hset
        have hhome : rightOwner r = P.side → pk = PieceKind.king →
            m.fromSq = kingHome P.side := by
          intro howner hk
          have hrR : r = CASTLING_RIGHTS P.side &&& r := by
            rcases hr4 with rfl | rfl | rfl | rfl <;> rw [← howner] <;> decide
          have hCR : P.castlingRights &&& CASTLING_RIGHTS P.side ≠ 0 :=
            land_mono_four _ _ _ hrR hset
          have hiff := hkr P.side hCR m.fromSq
          rw [hk] at hfrom
          exact hiff.mp hfrom
        rw [clearMask_ne_zero_iff]
        unfold claimClears
        rw [hfrom]
        simp only [hmk, Option.some.injEq, hcaprook, hc, ne_eq, not_true_eq_false, false_or,
          Prod.mk.injEq, true_and, not_false_eq_true]
        clear hepc hpr hmk hM0 hr hep hcapcol
        rcases hr4 with rfl | rfl | rfl | rfl <;> cases hs : P.side <;>
          simp_all [rightOwner, rookHome, CASTLING_RIGHTS, KING_CASTLING, QUEEN_CASTLING,
            KING_SIDE_ROOK_SQUARE, QUEEN_SIDE_ROOK_SQUARE, kingHome, Color.other,
            Position.homeRank, Position.sq4, mkSq] <;>
          constructor <;> intro h <;> tauto
      rw [hM0, clears_iff _ _ r hr]
      constructor
      · constructor
        · rintro ⟨hset, hor⟩
          rcases hor with hM | h0
          · exact ⟨(hmain hset).mp hM, hset⟩
          · exact absurd h0 hset
        · rintro ⟨hcl, hset⟩
          exact ⟨hset, Or.inl ((hmain hset).mpr hcl)⟩
      · intro hne
        by_contra h0
        apply hne
        rw [clears_iff _ _ r hr]
        exact Or.inr h0
  · -- castling move: both rights of the mover cleared
    have hM0 := do_move_castlingRights_castle T P m hc
    have hclaim : claimClears P m r ↔ rightOwner r = P.side := by
      unfold claimClears
      simp [hc]
    have hbit : (CASTLING_RIGHTS P.side &&& r ≠ 0) ↔ rightOwner r = P.side := by
      cases hs : P.side <;> rcases hr4 with rfl | rfl | rfl | rfl <;>
        simp [CASTLING_RIGHTS, rightOwner] <;> decide
    rw [hM0]
    constructor
    · rw [clears_iff _ _ r hr, hclaim, ← hbit]
      tauto
    · intro hne
      by_contra h0
      apply hne
      rw [clears_iff _ _ r hr]
      exact Or.inr h0

theorem c4_castling_rights_witness :
    claimClears posCastleRights mvA1A2 W_OOO := by
  have h := (c4_castling_rights T0 posCastleRights mvA1A2 (by decide) (by decide)
    (by decide)).1
  have h2 := ((h W_OOO (by decide)).1).mp ⟨by decide, by decide⟩
  exact h2.1


theorem sanCountLoop_spec (p : Move → Bool) :
    ∀ (moves : List Move) (acc : Move × Nat),
      (moves.foldl (fun acc m => if p m then (m, acc.2 + 1) else acc) acc).2 =
          acc.2 + moves.countP p ∧
      ((moves.foldl (fun acc m => if p m then (m, acc.2 + 1) else acc) acc).1 = acc.1 ∨
        (moves.foldl (fun acc m => if p m then (m, acc.2 + 1) else acc) acc).1 ∈
          moves.filter p) := by
  intro moves
  induction moves with
  | nil => intro acc; simp
  | cons m rest ih =>
    intro acc
    rw [List.foldl_cons]
    by_cases hm : p m = true
    · rw [if_pos hm]
      have h := ih (m, acc.2 + 1)
      refine ⟨?_, ?_⟩
      · rw [h.1, List.countP_cons, if_pos hm]
        omega
      · rw [List.filter_cons, if_pos hm]
        rcases h.2 with h2 | h2
        · right
          rw [h2]
          exact List.mem_cons_self _ _
        · right
          exact List.mem_cons_of_mem _ h2
    · rw [if_neg hm]
      have h := ih acc
      refine ⟨?_, ?_⟩
      · rw [h.1, List.countP_cons, if_neg hm]
        omega
      · rw [List.filter_cons, if_neg hm]
        exact h.2


/-- C9 amended (SAN half): for every input string, `parse_san` either
returns the `NO_MOVE` sentinel or a member of the legal move list, and it
returns the sentinel whenever the number of legal moves matching the parsed
description differs from one. -/
theorem c9_amended (P : Position) (s : String) :
    (Position.parse_san P s = NO_MOVE ∨ Position.parse_san P s ∈ generate_moves P) ∧
    (∀ g1 g2 g3 c4a c4b g5,
      sanRegexMatch s.data = some (g1, g2, g3, (c4a, c4b), g5) →
      ¬(s = "0-0" ∨ s = "O-O") → ¬(s = "0-0-0" ∨ s = "O-O-O") →
      (generate_moves P).countP
        (fun m => P.sanMatches (parsePieceKindChar g1) (g2.map Position.sanFile) (g3.map Position.sanRank)
          (Position.sanToSquare c4a c4b) (g5.map fun c => parsePieceKindChar (some c)) m) ≠ 1 →
      Position.parse_san P s = NO_MOVE) := by
  constructor
  · unfold Position.parse_san
    by_cases h1 : s = "0-0" ∨ s = "O-O"
    · rw [if_pos h1]
      by_cases h2 : (generate_moves P).contains KING_CASTLING_MOVE
      · rw [if_pos h2]
        right
        simpa [List.contains, List.elem_eq_mem] using h2
      · rw [if_neg h2]
        left
        rfl
    · rw [if_neg h1]
      by_cases h2 : s = "0-0-0" ∨ s = "O-O-O"
      · rw [if_pos h2]
        by_cases h3 : (generate_moves P).contains QUEEN_CASTLING_MOVE
        · rw [if_pos h3]
          right
          simpa [List.contains, List.elem_eq_mem] using h3
        · rw [if_neg h3]
          left
          rfl
      · rw [if_neg h2]
        match hreg : sanRegexMatch s.data with
        | none => left; rfl
        | some (g1, g2, g3, (c4a, c4b), g5) =>
          dsimp only
          by_cases hpr : (g5.map fun c => parsePieceKindChar (some c)) = some PieceKind.pawn ∨
              (g5.map fun c => parsePieceKindChar (some c)) = some PieceKind.king
          · rw [if_pos hpr]
            left
            rfl
          · rw [if_neg hpr]
            set p := fun m => P.sanMatches (parsePieceKindChar g1) (g2.map Position.sanFile)
              (g3.map Position.sanRank) (Position.sanToSquare c4a c4b)
              (g5.map fun c => parsePieceKindChar (some c)) m with hp
            by_cases hcnt : (Position.sanCountLoop p (generate_moves P)).2 ≠ 1
            · rw [if_pos hcnt]
              left
              rfl
            · rw [if_neg hcnt]
              have hspec := sanCountLoop_spec p (generate_moves P) ((NO_MOVE, 0) : Move × Nat)
              rcases hspec.2 with he | he
              · left
                exact he
              · right
                exact List.mem_of_mem_filter he
  · intro g1 g2 g3 c4a c4b g5 hreg h1 h2 hcnt
    unfold Position.parse_san
    rw [if_neg h1, if_neg h2, hreg]
    dsimp only
    by_cases hpr : (g5.map fun c => parsePieceKindChar (some c)) = some PieceKind.pawn ∨
        (g5.map fun c => parsePieceKindChar (some c)) = some PieceKind.king
    · rw [if_pos hpr]
    · rw [if_neg hpr]
      have hspec := sanCountLoop_spec
        (fun m => P.sanMatches (parsePieceKindChar g1) (g2.map Position.sanFile) (g3.map Position.sanRank)
          (Position.sanToSquare c4a c4b) (g5.map fun c => parsePieceKindChar (some c)) m)
        (generate_moves P) ((NO_MOVE, 0) : Move × Nat)
      rw [if_pos]
      unfold Position.sanCountLoop
      rw [hspec.1]
      simpa using hcnt

/-- C9 as stated is false for `parse_uci`: it performs no legality check.
In the start position the string a3a4 denotes no legal move (no legal move
leaves a3), yet `parse_uci` returns that move rather than the sentinel;
and an unknown promotion character raises an exception. -/
theorem c9_counterexample :
    (Position.parse_uci startPos "a3a4").toOption =
      some (create_move ⟨16, by decide⟩ ⟨24, by decide⟩) ∧
    (create_move (⟨16, by decide⟩ : Square) ⟨24, by decide⟩ ∉ generate_moves startPos) ∧
    create_move (⟨16, by decide⟩ : Square) ⟨24, by decide⟩ ≠ NO_MOVE ∧
    (Position.parse_uci startPos "e2e4x").toOption = none := by
  refine ⟨by decide, by decide, by decide, by decide⟩


theorem c9_amended_witness :
    Position.parse_san startPos "e4" = NO_MOVE ∨
    Position.parse_san startPos "e4" ∈ generate_moves startPos :=
  (c9_amended startPos "e4").1

theorem c5_amended_witness :
    (Position.do_move T0 startPos mvE2E4).1.history.length = startPos.history.length + 1 :=
  (c5_amended T0 startPos mvE2E4).2

theorem c6_is_draw_characterization_witness :
    startPos.enough_material = false ↔
      (startPos.piece_count (.white, .pawn) = 0 ∧ startPos.piece_count (.black, .pawn) = 0 ∧
       startPos.piece_count (.white, .rook) = 0 ∧ startPos.piece_count (.black, .rook) = 0 ∧
       startPos.piece_count (.white, .queen) = 0 ∧
       startPos.piece_count (.black, .queen) = 0 ∧
       startPos.piece_count (.white, .knight) + startPos.piece_count (.white, .bishop) +
         startPos.piece_count (.black, .knight) +
         startPos.piece_count (.black, .bishop) ≤ 1) :=
  (c6_is_draw_characterization startPos).2

theorem c10_posEq_ignores_counters_witness :
    Position.posEq { startPos with halfMove := 42, ply := 7, history := [] } startPos = true :=
  c10_posEq_ignores_counters.1 startPos 42 7 []


/-! ### C7: static exchange evaluation -/

theorem land_rot (a b c : Nat) : a &&& b &&& c = a &&& c &&& b := by
  rw [Nat.land_assoc, Nat.land_comm b c, ← Nat.land_assoc]

theorem land_self (a : Nat) : a &&& a = a := by
  apply Nat.eq_of_testBit_eq
  intro i
  rw [Nat.testBit_land, Bool.and_self]

theorem land_land_self (a b : Nat) : a &&& b &&& b = a &&& b := by
  rw [Nat.land_assoc, land_self]

/-- `seePickAttacker` only looks at the attacker set within `occ`. -/
theorem seePickAttacker_congr (P : Position) (a b occ : Bitboard) (side : Color)
    (h : a &&& occ = b &&& occ) :
    P.seePickAttacker a occ side = P.seePickAttacker b occ side := by
  unfold Position.seePickAttacker
  congr 1
  funext pk
  have hab : a &&& P.piecesCK side pk &&& occ = b &&& P.piecesCK side pk &&& occ := by
    rw [land_rot, h, land_rot]
  simp only [hab]

/-- An empty attacker set selects nothing. -/
theorem seePickAttacker_zero (P : Position) (occ : Bitboard) (side : Color) :
    P.seePickAttacker 0 occ side = none := by
  simp [Position.seePickAttacker, seeKinds, Nat.zero_and]

/-- The code never re-extends an attacker set: every square it removes from an
attacker set it also removes from the occupancy, so its loop coincides with
the no-X-ray swap loop driven by the initial attacker sets masked by the
shrinking occupancy. -/
theorem seeLoop_eq_noXray (P : Position) (att0 : Color → Bitboard) :
    ∀ (fuel : Nat) (side : Color) (att : Color → Bitboard) (occ : Bitboard)
      (cur : Option PieceKind),
      (∀ c, att c &&& occ = att0 c &&& occ) →
      P.seeLoop fuel side att occ cur = P.seeSpecNoXrayLoop att0 fuel side occ cur := by
  intro fuel
  induction fuel with
  | zero => intro side att occ cur _; rfl
  | succ n ih =>
    intro side att occ cur h
    simp only [Position.seeLoop, Position.seeSpecNoXrayLoop]
    have hpick : P.seePickAttacker (att side.other) occ side.other
        = P.seePickAttacker (att0 side.other &&& occ) occ side.other := by
      apply seePickAttacker_congr
      rw [land_land_self]
      exact h side.other
    by_cases h1 : att side.other = 0
    · rw [if_pos h1]
      have h2 : att0 side.other &&& occ = 0 := by
        rw [← h side.other, h1, Nat.zero_and]
      rw [if_pos h2]
    · rw [if_neg h1]
      by_cases h2 : att0 side.other &&& occ = 0
      · rw [if_pos h2]
        have hnone : P.seePickAttacker (att side.other) occ side.other = none := by
          rw [hpick, h2, seePickAttacker_zero]
        rw [hnone]
      · rw [if_neg h2, hpick]
        cases hp : P.seePickAttacker (att0 side.other &&& occ) occ side.other with
        | none => rfl
        | some pksq =>
          obtain ⟨pk, sq⟩ := pksq
          dsimp only
          congr 1
          apply ih
          intro c
          by_cases hc : c = side.other
          · subst hc
            rw [if_pos rfl, ← Nat.land_assoc, land_rot (att side.other), land_land_self,
                ← Nat.land_assoc, h side.other]
          · rw [if_neg hc, ← Nat.land_assoc, h c, Nat.land_assoc]

/-- C7: amended.  `see` computes the swap-off value WITHOUT X-ray reveal: the
two attacker sets are computed once, against the full pre-move occupancy
(minus nothing), and only ever shrink as attackers are consumed; a slider
standing behind another piece on the line to the target never joins the
exchange.  With that one change to the claimed algorithm the equality holds
for every position and every move. -/
theorem c7_amended (P : Position) (m : Move) :
    P.see m = P.seeSpecNoXray m := by
  unfold Position.see Position.seeSpecNoXray
  dsimp only
  congr 2
  exact seeLoop_eq_noXray P _ 33 P.side _ _ _ (fun c => rfl)

/-- C7: counterexample to the original claim.  In
`3r3k/3p4/8/8/8/8/3R4/3RK3 w - - 0 1` the capture Rd2xd7 is legal; the
spec's X-ray swap-off reveals the Rd1 battery behind the capturing rook and
scores +100, but the code scores -400 because the rook on d1 (blocked at the
initial attacker computation) never enters its fixed attacker set. -/
theorem c7_counterexample :
    mvRd2xd7 ∈ generate_moves posSeeBattery ∧
    posSeeBattery.see mvRd2xd7 = -400 ∧
    posSeeBattery.seeSpecXray mvRd2xd7 = 100 ∧
    posSeeBattery.see mvRd2xd7 ≠ posSeeBattery.seeSpecXray mvRd2xd7 := by
  decide

theorem tokenize_append_tok (t rest : List Char) (hne : t ≠ [])
    (hws : ∀ c ∈ t, ¬c.isWhitespace) :
    tokenize (t ++ ' ' :: rest) = t :: tokenize rest := by
  unfold tokenize
  rw [List.splitOnP_first _ t (fun c hc => by simpa using hws c hc) ' ' (by decide)]
  simp [List.filter_cons, hne]

theorem digitChar_facts (k : Nat) (h1 : 0 < k) (h2 : k ≤ 8) :
    (¬Char.ofNat (48 + k) = '/') ∧
      ('0' ≤ Char.ofNat (48 + k) ∧ Char.ofNat (48 + k) ≤ '9') ∧
      (Char.ofNat (48 + k)).toNat = 48 + k := by
  interval_cases k <;> exact (by decide)

theorem pieceChar_facts (p : ColoredPiece) :
    (¬pieceChar p = '/') ∧ ¬('0' ≤ pieceChar p ∧ pieceChar p ≤ '9') ∧
      charToPiece (pieceChar p) = some p := by
  obtain ⟨c, pk⟩ := p
  cases c <;> cases pk <;> exact (by decide)

theorem digitChar_no_ws (k : Nat) (h2 : k ≤ 8) : ¬(Char.ofNat (48 + k)).isWhitespace := by
  interval_cases k <;> decide

theorem pieceChar_no_ws (p : ColoredPiece) : ¬(pieceChar p).isWhitespace := by
  obtain ⟨c, pk⟩ := p
  cases c <;> cases pk <;> decide

theorem emitCells_no_ws :
    ∀ (cells : List Piece) (k : Nat), k + cells.length ≤ 8 →
      ∀ c ∈ emitCells cells k, ¬c.isWhitespace := by
  intro cells
  induction cells with
  | nil =>
    intro k hk c hc
    unfold emitCells at hc
    by_cases h0 : k > 0
    · rw [if_pos h0] at hc
      simp only [List.mem_singleton] at hc
      subst hc
      exact digitChar_no_ws k (by simpa using hk)
    · rw [if_neg h0] at hc
      simp at hc
  | cons cell cs ih =>
    intro k hk c hc
    cases cell with
    | none =>
      exact ih (k + 1) (by simp at hk ⊢; omega) c hc
    | some p =>
      unfold emitCells at hc
      rcases List.mem_append.1 hc with h | h
      · by_cases h0 : k > 0
        · rw [if_pos h0] at h
          simp only [List.mem_singleton] at h
          subst h
          exact digitChar_no_ws k (by simp at hk; omega)
        · rw [if_neg h0] at h
          simp at h
      · rcases List.mem_cons.1 h with h | h
        · subst h; exact pieceChar_no_ws p
        · exact ih 0 (by simp at hk ⊢; omega) c h

theorem fenRankChars_eq_emitCells (P : Position) (r : Fin 8) :
    P.fenRankChars r = emitCells (rankCells P r) 0 := by
  have aux : ∀ (fs : List (Fin 8)) (acc : List Char) (k : Nat),
      (fs.foldl
        (fun acc f =>
          match P.board (mkSq r f) with
          | none => (acc.1, acc.2 + 1)
          | some p =>
            (acc.1 ++ (if acc.2 > 0 then [Char.ofNat (48 + acc.2)] else []) ++ [pieceChar p],
              0))
        (acc, k)).1 ++
        (if (fs.foldl
          (fun acc f =>
            match P.board (mkSq r f) with
            | none => (acc.1, acc.2 + 1)
            | some p =>
              (acc.1 ++ (if acc.2 > 0 then [Char.ofNat (48 + acc.2)] else []) ++
                [pieceChar p], 0))
          (acc, k)).2 > 0
         then [Char.ofNat (48 +
          (fs.foldl
            (fun acc f =>
              match P.board (mkSq r f) with
              | none => (acc.1, acc.2 + 1)
              | some p =>
                (acc.1 ++ (if acc.2 > 0 then [Char.ofNat (48 + acc.2)] else []) ++
                  [pieceChar p], 0))
            (acc, k)).2)]
         else [])
        = acc ++ emitCells (fs.map fun f => P.board (mkSq r f)) k := by
    intro fs
    induction fs with
    | nil => intro acc k; rfl
    | cons f fs ih =>
      intro acc k
      rw [List.foldl_cons, List.map_cons]
      cases hb : P.board (mkSq r f) with
      | none =>
        simp only [hb]
        rw [ih]
        rfl
      | some p =>
        simp only [hb]
        rw [ih]
        simp [emitCells, List.append_assoc]
  unfold Position.fenRankChars rankCells
  exact aux (List.finRange 8) [] 0

theorem parse_flush (Q : Position) (k : Nat) (hk : k ≤ 8) (sq : Int) (rest : List Char) :
    parseBoardChars Q sq ((if k > 0 then [Char.ofNat (48 + k)] else []) ++ rest)
      = parseBoardChars Q (sq + k) rest := by
  by_cases h0 : k > 0
  · rw [if_pos h0]
    simp only [List.cons_append, List.nil_append]
    simp only [parseBoardChars]
    rw [if_neg (digitChar_facts k h0 hk).1, if_pos (digitChar_facts k h0 hk).2.1,
        (digitChar_facts k h0 hk).2.2]
    have e : sq + (((48 + k : Nat) : Int) - 48) = sq + k := by push_cast; ring
    rw [e]
  · rw [if_neg h0]
    have hz : k = 0 := by omega
    subst hz
    simp

theorem parse_emitCells :
    ∀ (cells : List Piece) (k : Nat) (Q : Position) (sq t : Int) (rest : List Char),
      k + cells.length ≤ 8 → t = sq + k →
      parseBoardChars Q sq (emitCells cells k ++ rest)
        = parseBoardChars (placeCells Q t cells) (t + cells.length) rest := by
  intro cells
  induction cells with
  | nil =>
    intro k Q sq t rest hk ht
    unfold emitCells
    rw [parse_flush Q k (by simpa using hk) sq rest, ← ht]
    simp [placeCells]
  | cons cell cs ih =>
    intro k Q sq t rest hk ht
    cases cell with
    | none =>
      show parseBoardChars Q sq (emitCells cs (k + 1) ++ rest) = _
      rw [ih (k + 1) Q sq (t + 1) rest (by simp at hk ⊢; omega) (by push_cast; omega)]
      show _ = parseBoardChars (placeCells Q (t + 1) cs) _ rest
      have e : t + ((cs.length + 1 : Nat) : Int) = t + 1 + (cs.length : Int) := by
        push_cast; ring
      rw [List.length_cons, e]
    | some p =>
      show parseBoardChars Q sq
          (((if k > 0 then [Char.ofNat (48 + k)] else []) ++ pieceChar p :: emitCells cs 0)
            ++ rest) = _
      rw [List.append_assoc, List.cons_append,
          parse_flush Q k (by simp at hk; omega) sq _, ← ht]
      simp only [parseBoardChars]
      rw [if_neg (pieceChar_facts p).1, if_neg (pieceChar_facts p).2.1,
          (pieceChar_facts p).2.2]
      show _ = parseBoardChars (placeCells Q t (some p :: cs)) _ rest
      simp only [placeCells]
      have e : t + ((cs.length + 1 : Nat) : Int) = t + 1 + (cs.length : Int) := by
        push_cast; ring
      rw [List.length_cons, e]
      by_cases hr : 0 ≤ t ∧ t < 64
      · rw [dif_pos hr, dif_pos hr]
        exact ih 0 _ (t + 1) (t + 1) rest (by simp at hk ⊢; omega) (by simp)
      · rw [dif_neg hr, dif_neg hr]
        exact ih 0 _ (t + 1) (t + 1) rest (by simp at hk ⊢; omega) (by simp)

theorem rankCells_length (P : Position) (r : Fin 8) : (rankCells P r).length = 8 := by
  simp [rankCells]

theorem parse_rank_step (Q : Position) (cells : List Piece) (s : Int) (rest : List Char)
    (h : cells.length = 8) :
    parseBoardChars Q s (emitCells cells 0 ++ '/' :: rest)
      = parseBoardChars (placeCells Q s cells) (s - 8) rest := by
  rw [parse_emitCells cells 0 Q s s ('/' :: rest) (by omega) (by simp)]
  rw [h]
  simp only [parseBoardChars]
  rw [if_pos trivial]
  have e : s + ((8 : Nat) : Int) - 16 = s - 8 := by push_cast; ring
  rw [e]

theorem parse_rank_last (Q : Position) (cells : List Piece) (s : Int)
    (h : cells.length = 8) :
    parseBoardChars Q s (emitCells cells 0) = placeCells Q s cells := by
  have e := parse_emitCells cells 0 Q s s [] (by omega) (by simp)
  rw [List.append_nil] at e
  rw [e]
  rfl

theorem fenBoardChars_expand (P : Position) :
    P.fenBoardChars
      = emitCells (rankCells P 7) 0 ++ '/' ::
        (emitCells (rankCells P 6) 0 ++ '/' ::
        (emitCells (rankCells P 5) 0 ++ '/' ::
        (emitCells (rankCells P 4) 0 ++ '/' ::
        (emitCells (rankCells P 3) 0 ++ '/' ::
        (emitCells (rankCells P 2) 0 ++ '/' ::
        (emitCells (rankCells P 1) 0 ++ '/' ::
        emitCells (rankCells P 0) 0)))))) := by
  unfold Position.fenBoardChars
  have hfr : (List.finRange 8).reverse = ([7, 6, 5, 4, 3, 2, 1, 0] : List (Fin 8)) := by decide
  rw [hfr]
  simp only [List.map_cons, List.map_nil, fenRankChars_eq_emitCells]
  simp [List.intercalate, List.intersperse, List.append_assoc]

theorem fenBoardChars_no_ws (P : Position) :
    ∀ c ∈ P.fenBoardChars, ¬c.isWhitespace := by
  intro c hc
  rw [fenBoardChars_expand] at hc
  have hr : ∀ r : Fin 8, c ∈ emitCells (rankCells P r) 0 → ¬c.isWhitespace := fun r h =>
    emitCells_no_ws (rankCells P r) 0 (by simp [rankCells_length]) c h
  have hs : c = '/' → ¬c.isWhitespace := fun h => by subst h; decide
  simp only [List.mem_append, List.mem_cons] at hc
  rcases hc with h | h | h | h | h | h | h | h | h | h | h | h | h | h | h
  all_goals first
    | exact hr _ h
    | exact hs h

theorem fenBoardChars_ne_nil (P : Position) : P.fenBoardChars ≠ [] := by
  rw [fenBoardChars_expand]
  intro h
  rcases List.append_eq_nil.1 h with ⟨-, h2⟩
  simp at h2

theorem parse_fenBoardChars (P : Position) :
    parseBoardChars emptyPos 56 P.fenBoardChars = parsedRanks P := by
  rw [fenBoardChars_expand]
  rw [parse_rank_step _ _ _ _ (rankCells_length P 7),
      parse_rank_step _ _ _ _ (rankCells_length P 6),
      parse_rank_step _ _ _ _ (rankCells_length P 5),
      parse_rank_step _ _ _ _ (rankCells_length P 4),
      parse_rank_step _ _ _ _ (rankCells_length P 3),
      parse_rank_step _ _ _ _ (rankCells_length P 2),
      parse_rank_step _ _ _ _ (rankCells_length P 1),
      parse_rank_last _ _ _ (rankCells_length P 0)]
  unfold parsedRanks
  norm_num

theorem placePiece_board (Q : Position) (p : ColoredPiece) (w t : Square) :
    (placePiece Q p w).board t = if t = w then some p else Q.board t := by
  unfold placePiece
  simp [Function.update_apply]

theorem placeCells_board :
    ∀ (cells : List Piece) (Q : Position) (s : Nat) (s' : Int), s' = (s : Int) →
      s + cells.length ≤ 64 →
      ∀ t : Square,
        (placeCells Q s' cells).board t
          = (if s ≤ t.val ∧ t.val < s + cells.length
             then cells.getD (t.val - s) none else none).or (Q.board t) := by
  intro cells
  induction cells with
  | nil =>
    intro Q s s' hs h64 t
    rw [if_neg (by simp only [List.length_nil]; omega)]
    rfl
  | cons c cs ih =>
    intro Q s s' hs h64 t
    subst hs
    cases c with
    | none =>
      show (placeCells Q ((s : Int) + 1) cs).board t = _
      rw [ih Q (s + 1) ((s : Int) + 1) (by push_cast; ring) (by simp at h64 ⊢; omega) t]
      by_cases h1 : s ≤ t.val ∧ t.val < s + (cs.length + 1)
      · rw [List.length_cons, if_pos h1]
        by_cases h2 : t.val = s
        · rw [if_neg (by omega), show t.val - s = 0 from by omega, List.getD_cons_zero]
        · rw [if_pos ⟨by omega, by omega⟩,
              show t.val - s = (t.val - (s + 1)) + 1 from by omega, List.getD_cons_succ]
      · rw [List.length_cons, if_neg h1, if_neg (by simp at h1 ⊢; omega)]
    | some p =>
      have hlt : s < 64 := by simp at h64; omega
      show (placeCells
          (if h : 0 ≤ (s : Int) ∧ (s : Int) < 64
           then placePiece Q p ⟨((s : Int)).toNat, by omega⟩ else Q)
          ((s : Int) + 1) cs).board t = _
      rw [dif_pos ⟨Int.natCast_nonneg s, by exact_mod_cast hlt⟩]
      rw [ih _ (s + 1) ((s : Int) + 1) (by push_cast; ring) (by simp at h64 ⊢; omega) t]
      rw [placePiece_board]
      have hw : (t = (⟨((s : Int)).toNat, by omega⟩ : Square)) ↔ t.val = s := by
        rw [Fin.ext_iff]
        simp
      by_cases h2 : t.val = s
      · rw [if_pos (hw.2 h2), if_neg (by omega), List.length_cons,
            if_pos ⟨by omega, by omega⟩, show t.val - s = 0 from by omega,
            List.getD_cons_zero]
        rfl
      · rw [if_neg (fun h => h2 (hw.1 h)), List.length_cons]
        by_cases h1 : s + 1 ≤ t.val ∧ t.val < s + (cs.length + 1)
        · rw [if_pos ⟨by omega, by omega⟩, if_pos ⟨by omega, by omega⟩,
              show t.val - s = (t.val - (s + 1)) + 1 from by omega, List.getD_cons_succ]
        · rw [if_neg (by omega), if_neg (by omega)]

theorem rankCells_getD (P : Position) (r : Fin 8) (j : Nat) (hj : j < 8) :
    (rankCells P r).getD j none = P.board (mkSq r ⟨j, hj⟩) := by
  unfold rankCells
  have hfr : List.finRange 8 = ([0, 1, 2, 3, 4, 5, 6, 7] : List (Fin 8)) := by decide
  rw [hfr]
  interval_cases j <;> rfl

theorem parsedRanks_board (P : Position) (t : Square) :
    (parsedRanks P).board t = P.board t := by
  have hlt := t.isLt
  unfold parsedRanks
  rw [placeCells_board (rankCells P 0) _ 0 0 (by norm_num) (by simp [rankCells_length]) t,
      placeCells_board (rankCells P 1) _ 8 8 (by norm_num) (by simp [rankCells_length]) t,
      placeCells_board (rankCells P 2) _ 16 16 (by norm_num) (by simp [rankCells_length]) t,
      placeCells_board (rankCells P 3) _ 24 24 (by norm_num) (by simp [rankCells_length]) t,
      placeCells_board (rankCells P 4) _ 32 32 (by norm_num) (by simp [rankCells_length]) t,
      placeCells_board (rankCells P 5) _ 40 40 (by norm_num) (by simp [rankCells_length]) t,
      placeCells_board (rankCells P 6) _ 48 48 (by norm_num) (by simp [rankCells_length]) t,
      placeCells_board (rankCells P 7) _ 56 56 (by norm_num) (by simp [rankCells_length]) t]
  simp only [rankCells_length]
  have hemp : emptyPos.board t = none := rfl
  rw [hemp]
  have hor1 : ∀ x : Piece, Option.or none x = x := fun x => rfl
  have hor2 : ∀ x : Piece, Option.or x none = x := fun x => by cases x <;> rfl
  by_cases hc0 : t.val < 8
  · rw [if_pos (by omega : 0 ≤ t.val ∧ t.val < 0 + 8),
        if_neg (by omega : ¬(8 ≤ t.val ∧ t.val < 8 + 8)),
        if_neg (by omega : ¬(16 ≤ t.val ∧ t.val < 16 + 8)),
        if_neg (by omega : ¬(24 ≤ t.val ∧ t.val < 24 + 8)),
        if_neg (by omega : ¬(32 ≤ t.val ∧ t.val < 32 + 8)),
        if_neg (by omega : ¬(40 ≤ t.val ∧ t.val < 40 + 8)),
        if_neg (by omega : ¬(48 ≤ t.val ∧ t.val < 48 + 8)),
        if_neg (by omega : ¬(56 ≤ t.val ∧ t.val < 56 + 8)),
        rankCells_getD P 0 (t.val - 0) (by omega)]
    have hmk : mkSq 0 ⟨t.val - 0, by omega⟩ = t := by
      apply Fin.ext
      show 8 * ((0 : Fin 8)).val + (t.val - 0) = t.val
      have hv : ((0 : Fin 8)).val = 0 := rfl
      omega
    rw [hmk]
    simp only [hor1, hor2]
  · by_cases hc1 : t.val < 16
    · rw [if_neg (by omega : ¬(0 ≤ t.val ∧ t.val < 0 + 8)),
          if_pos (by omega : 8 ≤ t.val ∧ t.val < 8 + 8),
          if_neg (by omega : ¬(16 ≤ t.val ∧ t.val < 16 + 8)),
          if_neg (by omega : ¬(24 ≤ t.val ∧ t.val < 24 + 8)),
          if_neg (by omega : ¬(32 ≤ t.val ∧ t.val < 32 + 8)),
          if_neg (by omega : ¬(40 ≤ t.val ∧ t.val < 40 + 8)),
          if_neg (by omega : ¬(48 ≤ t.val ∧ t.val < 48 + 8)),
          if_neg (by omega : ¬(56 ≤ t.val ∧ t.val < 56 + 8)),
          rankCells_getD P 1 (t.val - 8) (by omega)]
      have hmk : mkSq 1 ⟨t.val - 8, by omega⟩ = t := by
        apply Fin.ext
        show 8 * ((1 : Fin 8)).val + (t.val - 8) = t.val
        have hv : ((1 : Fin 8)).val = 1 := rfl
        omega
      rw [hmk]
      simp only [hor1, hor2]
    · by_cases hc2 : t.val < 24
      · rw [if_neg (by omega : ¬(0 ≤ t.val ∧ t.val < 0 + 8)),
            if_neg (by omega : ¬(8 ≤ t.val ∧ t.val < 8 + 8)),
            if_pos (by omega : 16 ≤ t.val ∧ t.val < 16 + 8),
            if_neg (by omega : ¬(24 ≤ t.val ∧ t.val < 24 + 8)),
            if_neg (by omega : ¬(32 ≤ t.val ∧ t.val < 32 + 8)),
            if_neg (by omega : ¬(40 ≤ t.val ∧ t.val < 40 + 8)),
            if_neg (by omega : ¬(48 ≤ t.val ∧ t.val < 48 + 8)),
            if_neg (by omega : ¬(56 ≤ t.val ∧ t.val < 56 + 8)),
            rankCells_getD P 2 (t.val - 16) (by omega)]
        have hmk : mkSq 2 ⟨t.val - 16, by omega⟩ = t := by
          apply Fin.ext
          show 8 * ((2 : Fin 8)).val + (t.val - 16) = t.val
          have hv : ((2 : Fin 8)).val = 2 := rfl
          omega
        rw [hmk]
        simp only [hor1, hor2]
      · by_cases hc3 : t.val < 32
        · rw [if_neg (by omega : ¬(0 ≤ t.val ∧ t.val < 0 + 8)),
              if_neg (by omega : ¬(8 ≤ t.val ∧ t.val < 8 + 8)),
              if_neg (by omega : ¬(16 ≤ t.val ∧ t.val < 16 + 8)),
              if_pos (by omega : 24 ≤ t.val ∧ t.val < 24 + 8),
              if_neg (by omega : ¬(32 ≤ t.val ∧ t.val < 32 + 8)),
              if_neg (by omega : ¬(40 ≤ t.val ∧ t.val < 40 + 8)),
              if_neg (by omega : ¬(48 ≤ t.val ∧ t.val < 48 + 8)),
              if_neg (by omega : ¬(56 ≤ t.val ∧ t.val < 56 + 8)),
              rankCells_getD P 3 (t.val - 24) (by omega)]
          have hmk : mkSq 3 ⟨t.val - 24, by omega⟩ = t := by
            apply Fin.ext
            show 8 * ((3 : Fin 8)).val + (t.val - 24) = t.val
            have hv : ((3 : Fin 8)).val = 3 := rfl
            omega
          rw [hmk]
          simp only [hor1, hor2]
        · by_cases hc4 : t.val < 40
          · rw [if_neg (by omega : ¬(0 ≤ t.val ∧ t.val < 0 + 8)),
                if_neg (by omega : ¬(8 ≤ t.val ∧ t.val < 8 + 8)),
                if_neg (by omega : ¬(16 ≤ t.val ∧ t.val < 16 + 8)),
                if_neg (by omega : ¬(24 ≤ t.val ∧ t.val < 24 + 8)),
                if_pos (by omega : 32 ≤ t.val ∧ t.val < 32 + 8),
                if_neg (by omega : ¬(40 ≤ t.val ∧ t.val < 40 + 8)),
                if_neg (by omega : ¬(48 ≤ t.val ∧ t.val < 48 + 8)),
                if_neg (by omega : ¬(56 ≤ t.val ∧ t.val < 56 + 8)),
                rankCells_getD P 4 (t.val - 32) (by omega)]
            have hmk : mkSq 4 ⟨t.val - 32, by omega⟩ = t := by
              apply Fin.ext
              show 8 * ((4 : Fin 8)).val + (t.val - 32) = t.val
              have hv : ((4 : Fin 8)).val = 4 := rfl
              omega
            rw [hmk]
            simp only [hor1, hor2]
          · by_cases hc5 : t.val < 48
            · rw [if_neg (by omega : ¬(0 ≤ t.val ∧ t.val < 0 + 8)),
                  if_neg (by omega : ¬(8 ≤ t.val ∧ t.val < 8 + 8)),
                  if_neg (by omega : ¬(16 ≤ t.val ∧ t.val < 16 + 8)),
                  if_neg (by omega : ¬(24 ≤ t.val ∧ t.val < 24 + 8)),
                  if_neg (by omega : ¬(32 ≤ t.val ∧ t.val < 32 + 8)),
                  if_pos (by omega : 40 ≤ t.val ∧ t.val < 40 + 8),
                  if_neg (by omega : ¬(48 ≤ t.val ∧ t.val < 48 + 8)),
                  if_neg (by omega : ¬(56 ≤ t.val ∧ t.val < 56 + 8)),
                  rankCells_getD P 5 (t.val - 40) (by omega)]
              have hmk : mkSq 5 ⟨t.val - 40, by omega⟩ = t := by
                apply Fin.ext
                show 8 * ((5 : Fin 8)).val + (t.val - 40) = t.val
                have hv : ((5 : Fin 8)).val = 5 := rfl
                omega
              rw [hmk]
              simp only [hor1, hor2]
            · by_cases hc6 : t.val < 56
              · rw [if_neg (by omega : ¬(0 ≤ t.val ∧ t.val < 0 + 8)),
                    if_neg (by omega : ¬(8 ≤ t.val ∧ t.val < 8 + 8)),
                    if_neg (by omega : ¬(16 ≤ t.val ∧ t.val < 16 + 8)),
                    if_neg (by omega : ¬(24 ≤ t.val ∧ t.val < 24 + 8)),
                    if_neg (by omega : ¬(32 ≤ t.val ∧ t.val < 32 + 8)),
                    if_neg (by omega : ¬(40 ≤ t.val ∧ t.val < 40 + 8)),
                    if_pos (by omega : 48 ≤ t.val ∧ t.val < 48 + 8),
                    if_neg (by omega : ¬(56 ≤ t.val ∧ t.val < 56 + 8)),
                    rankCells_getD P 6 (t.val - 48) (by omega)]
                have hmk : mkSq 6 ⟨t.val - 48, by omega⟩ = t := by
                  apply Fin.ext
                  show 8 * ((6 : Fin 8)).val + (t.val - 48) = t.val
                  have hv : ((6 : Fin 8)).val = 6 := rfl
                  omega
                rw [hmk]
                simp only [hor1, hor2]
              · rw [if_neg (by omega : ¬(0 ≤ t.val ∧ t.val < 0 + 8)),
                    if_neg (by omega : ¬(8 ≤ t.val ∧ t.val < 8 + 8)),
                    if_neg (by omega : ¬(16 ≤ t.val ∧ t.val < 16 + 8)),
                    if_neg (by omega : ¬(24 ≤ t.val ∧ t.val < 24 + 8)),
                    if_neg (by omega : ¬(32 ≤ t.val ∧ t.val < 32 + 8)),
                    if_neg (by omega : ¬(40 ≤ t.val ∧ t.val < 40 + 8)),
                    if_neg (by omega : ¬(48 ≤ t.val ∧ t.val < 48 + 8)),
                    if_pos (by omega : 56 ≤ t.val ∧ t.val < 56 + 8),
                    rankCells_getD P 7 (t.val - 56) (by omega)]
                have hmk : mkSq 7 ⟨t.val - 56, by omega⟩ = t := by
                  apply Fin.ext
                  show 8 * ((7 : Fin 8)).val + (t.val - 56) = t.val
                  have hv : ((7 : Fin 8)).val = 7 := rfl
                  omega
                rw [hmk]
                simp only [hor1, hor2]

theorem placePiece_piecePos (Q : Position) (p : ColoredPiece) (w : Square)
    (q : ColoredPiece) :
    (placePiece Q p w).piecePos q
      = if q = p then Q.piecePos p ++ [w] else Q.piecePos q := by
  unfold placePiece
  simp [Function.update_apply]

theorem placePiece_listCoh (Q : Position) (p : ColoredPiece) (w : Square)
    (hb : Q.board w = none)
    (hmem : ∀ q t, t ∈ Q.piecePos q ↔ Q.board t = some q)
    (hnd : ∀ q, (Q.piecePos q).Nodup) :
    (∀ q t, t ∈ (placePiece Q p w).piecePos q ↔ (placePiece Q p w).board t = some q) ∧
      (∀ q, ((placePiece Q p w).piecePos q).Nodup) := by
  have hwp : w ∉ Q.piecePos p := fun h => by
    have := (hmem p w).1 h
    rw [hb] at this
    exact Option.noConfusion this
  constructor
  · intro q t
    rw [placePiece_piecePos, placePiece_board]
    by_cases hq : q = p
    · subst hq
      rw [if_pos rfl]
      by_cases ht : t = w
      · subst ht
        rw [if_pos rfl]
        simp
      · rw [if_neg ht]
        simp only [List.mem_append, List.mem_singleton]
        rw [hmem q t]
        simp [ht]
    · rw [if_neg hq]
      by_cases ht : t = w
      · subst ht
        rw [if_pos rfl]
        constructor
        · intro h
          have := (hmem q t).1 h
          rw [hb] at this
          exact Option.noConfusion this
        · intro h
          exact absurd (Option.some.inj h).symm hq
      · rw [if_neg ht]
        exact hmem q t
  · intro q
    rw [placePiece_piecePos]
    by_cases hq : q = p
    · subst hq
      rw [if_pos rfl]
      refine List.Nodup.append (hnd q) (List.nodup_singleton w) ?_
      intro a ha hb'
      rw [List.mem_singleton] at hb'
      subst hb'
      exact hwp ha
    · rw [if_neg hq]
      exact hnd q

theorem placeCells_cons_none (Q : Position) (cs : List Piece) (s : Nat) :
    placeCells Q (s : Int) (none :: cs) = placeCells Q ((s + 1 : Nat) : Int) cs := by
  show placeCells Q ((s : Int) + 1) cs = _
  congr 1

theorem placeCells_cons_some (Q : Position) (p : ColoredPiece) (cs : List Piece) (s : Nat)
    (h : s < 64) :
    placeCells Q (s : Int) (some p :: cs)
      = placeCells (placePiece Q p ⟨s, h⟩) ((s + 1 : Nat) : Int) cs := by
  show placeCells
      (if hc : 0 ≤ (s : Int) ∧ (s : Int) < 64
       then placePiece Q p ⟨((s : Int)).toNat, by omega⟩ else Q) ((s : Int) + 1) cs = _
  rw [dif_pos ⟨Int.natCast_nonneg s, by exact_mod_cast h⟩]
  congr 1

theorem placeCells_listCoh :
    ∀ (cells : List Piece) (Q : Position) (s : Nat) (s' : Int), s' = (s : Int) →
      ∀ (h64 : s + cells.length ≤ 64),
      (∀ i, (hi : i < cells.length) → Q.board ⟨s + i, by omega⟩ = none) →
      (∀ q t, t ∈ Q.piecePos q ↔ Q.board t = some q) →
      (∀ q, (Q.piecePos q).Nodup) →
      (∀ q t, t ∈ (placeCells Q s' cells).piecePos q ↔
          (placeCells Q s' cells).board t = some q) ∧
        (∀ q, ((placeCells Q s' cells).piecePos q).Nodup) := by
  intro cells
  induction cells with
  | nil =>
    intro Q s s' hs h64 hf hmem hnd
    exact ⟨hmem, hnd⟩
  | cons c cs ih =>
    intro Q s s' hs h64 hf hmem hnd
    subst hs
    cases c with
    | none =>
      rw [placeCells_cons_none Q cs s]
      refine ih Q (s + 1) _ rfl (by simp only [List.length_cons] at h64 ⊢; omega)
        ?_ hmem hnd
      intro i hi
      have h := hf (i + 1) (by simp only [List.length_cons]; omega)
      convert h using 2 <;> simp only [Fin.mk.injEq] <;> omega
    | some p =>
      have hlt : s < 64 := by simp only [List.length_cons] at h64; omega
      rw [placeCells_cons_some Q p cs s hlt]
      have hw0 : Q.board ⟨s, hlt⟩ = none := by
        have h := hf 0 (by simp)
        convert h using 2 <;> simp only [Fin.mk.injEq] <;> omega
      have step := placePiece_listCoh Q p ⟨s, hlt⟩ hw0 hmem hnd
      refine ih (placePiece Q p ⟨s, hlt⟩) (s + 1) _ rfl
        (by simp only [List.length_cons] at h64 ⊢; omega) ?_ step.1 step.2
      intro i hi
      rw [placePiece_board, if_neg (fun hq => by
        have hv : s + 1 + i = s := congrArg Fin.val hq
        omega)]
      have h := hf (i + 1) (by simp only [List.length_cons]; omega)
      convert h using 2 <;> simp only [Fin.mk.injEq] <;> omega

theorem emptyPos_listCoh :
    (∀ q t, t ∈ emptyPos.piecePos q ↔ emptyPos.board t = some q) ∧
      (∀ q, (emptyPos.piecePos q).Nodup) := by
  constructor
  · intro q t
    simp [emptyPos]
  · intro q
    simp [emptyPos]

theorem parsedRanks_listCoh (P : Position) :
    (∀ q t, t ∈ (parsedRanks P).piecePos q ↔ (parsedRanks P).board t = some q) ∧
      (∀ q, ((parsedRanks P).piecePos q).Nodup) := by
  have hb0 : ∀ t : Square, t.val < 56 → (placeCells emptyPos 56 (rankCells P 7)).board t = none := by
    intro t ht
    rw [placeCells_board (rankCells P 7) _ 56 56 (by norm_num) (by simp [rankCells_length]) t,
        rankCells_length, if_neg (by omega)]
    rfl
  have hb1 : ∀ t : Square, t.val < 48 → (placeCells (placeCells emptyPos 56 (rankCells P 7)) 48 (rankCells P 6)).board t = none := by
    intro t ht
    rw [placeCells_board (rankCells P 6) _ 48 48 (by norm_num) (by simp [rankCells_length]) t,
        rankCells_length, if_neg (by omega)]
    show Option.or none _ = none
    exact hb0 t (by omega)
  have hb2 : ∀ t : Square, t.val < 40 → (placeCells (placeCells (placeCells emptyPos 56 (rankCells P 7)) 48 (rankCells P 6)) 40 (rankCells P 5)).board t = none := by
    intro t ht
    rw [placeCells_board (rankCells P 5) _ 40 40 (by norm_num) (by simp [rankCells_length]) t,
        rankCells_length, if_neg (by omega)]
    show Option.or none _ = none
    exact hb1 t (by omega)
  have hb3 : ∀ t : Square, t.val < 32 → (placeCells (placeCells (placeCells (placeCells emptyPos 56 (rankCells P 7)) 48 (rankCells P 6)) 40 (rankCells P 5)) 32 (rankCells P 4)).board t = none := by
    intro t ht
    rw [placeCells_board (rankCells P 4) _ 32 32 (by norm_num) (by simp [rankCells_length]) t,
        rankCells_length, if_neg (by omega)]
    show Option.or none _ = none
    exact hb2 t (by omega)
  have hb4 : ∀ t : Square, t.val < 24 → (placeCells (placeCells (placeCells (placeCells (placeCells emptyPos 56 (rankCells P 7)) 48 (rankCells P 6)) 40 (rankCells P 5)) 32 (rankCells P 4)) 24 (rankCells P 3)).board t = none := by
    intro t ht
    rw [placeCells_board (rankCells P 3) _ 24 24 (by norm_num) (by simp [rankCells_length]) t,
        rankCells_length, if_neg (by omega)]
    show Option.or none _ = none
    exact hb3 t (by omega)
  have hb5 : ∀ t : Square, t.val < 16 → (placeCells (placeCells (placeCells (placeCells (placeCells (placeCells emptyPos 56 (rankCells P 7)) 48 (rankCells P 6)) 40 (rankCells P 5)) 32 (rankCells P 4)) 24 (rankCells P 3)) 16 (rankCells P 2)).board t = none := by
    intro t ht
    rw [placeCells_board (rankCells P 2) _ 16 16 (by norm_num) (by simp [rankCells_length]) t,
        rankCells_length, if_neg (by omega)]
    show Option.or none _ = none
    exact hb4 t (by omega)
  have hb6 : ∀ t : Square, t.val < 8 → (placeCells (placeCells (placeCells (placeCells (placeCells (placeCells (placeCells emptyPos 56 (rankCells P 7)) 48 (rankCells P 6)) 40 (rankCells P 5)) 32 (rankCells P 4)) 24 (rankCells P 3)) 16 (rankCells P 2)) 8 (rankCells P 1)).board t = none := by
    intro t ht
    rw [placeCells_board (rankCells P 1) _ 8 8 (by norm_num) (by simp [rankCells_length]) t,
        rankCells_length, if_neg (by omega)]
    show Option.or none _ = none
    exact hb5 t (by omega)
  have s0 := placeCells_listCoh (rankCells P 7) (emptyPos) 56 56
    (by norm_num) (by simp [rankCells_length]) (fun i hi => rfl) emptyPos_listCoh.1 emptyPos_listCoh.2
  have s1 := placeCells_listCoh (rankCells P 6) (placeCells emptyPos 56 (rankCells P 7)) 48 48
    (by norm_num) (by simp [rankCells_length]) (fun i hi => hb0 ⟨48 + i, by simp [rankCells_length] at hi; omega⟩ (by simp only [rankCells_length] at hi; show (48 : Nat) + i < 56; omega)) s0.1 s0.2
  have s2 := placeCells_listCoh (rankCells P 5) (placeCells (placeCells emptyPos 56 (rankCells P 7)) 48 (rankCells P 6)) 40 40
    (by norm_num) (by simp [rankCells_length]) (fun i hi => hb1 ⟨40 + i, by simp [rankCells_length] at hi; omega⟩ (by simp only [rankCells_length] at hi; show (40 : Nat) + i < 48; omega)) s1.1 s1.2
  have s3 := placeCells_listCoh (rankCells P 4) (placeCells (placeCells (placeCells emptyPos 56 (rankCells P 7)) 48 (rankCells P 6)) 40 (rankCells P 5)) 32 32
    (by norm_num) (by simp [rankCells_length]) (fun i hi => hb2 ⟨32 + i, by simp [rankCells_length] at hi; omega⟩ (by simp only [rankCells_length] at hi; show (32 : Nat) + i < 40; omega)) s2.1 s2.2
  have s4 := placeCells_listCoh (rankCells P 3) (placeCells (placeCells (placeCells (placeCells emptyPos 56 (rankCells P 7)) 48 (rankCells P 6)) 40 (rankCells P 5)) 32 (rankCells P 4)) 24 24
    (by norm_num) (by simp [rankCells_length]) (fun i hi => hb3 ⟨24 + i, by simp [rankCells_length] at hi; omega⟩ (by simp only [rankCells_length] at hi; show (24 : Nat) + i < 32; omega)) s3.1 s3.2
  have s5 := placeCells_listCoh (rankCells P 2) (placeCells (placeCells (placeCells (placeCells (placeCells emptyPos 56 (rankCells P 7)) 48 (rankCells P 6)) 40 (rankCells P 5)) 32 (rankCells P 4)) 24 (rankCells P 3)) 16 16
    (by norm_num) (by simp [rankCells_length]) (fun i hi => hb4 ⟨16 + i, by simp [rankCells_length] at hi; omega⟩ (by simp only [rankCells_length] at hi; show (16 : Nat) + i < 24; omega)) s4.1 s4.2
  have s6 := placeCells_listCoh (rankCells P 1) (placeCells (placeCells (placeCells (placeCells (placeCells (placeCells emptyPos 56 (rankCells P 7)) 48 (rankCells P 6)) 40 (rankCells P 5)) 32 (rankCells P 4)) 24 (rankCells P 3)) 16 (rankCells P 2)) 8 8
    (by norm_num) (by simp [rankCells_length]) (fun i hi => hb5 ⟨8 + i, by simp [rankCells_length] at hi; omega⟩ (by simp only [rankCells_length] at hi; show (8 : Nat) + i < 16; omega)) s5.1 s5.2
  have s7 := placeCells_listCoh (rankCells P 0) (placeCells (placeCells (placeCells (placeCells (placeCells (placeCells (placeCells emptyPos 56 (rankCells P 7)) 48 (rankCells P 6)) 40 (rankCells P 5)) 32 (rankCells P 4)) 24 (rankCells P 3)) 16 (rankCells P 2)) 8 (rankCells P 1)) 0 0
    (by norm_num) (by simp [rankCells_length]) (fun i hi => hb6 ⟨0 + i, by simp [rankCells_length] at hi; omega⟩ (by simp only [rankCells_length] at hi; show (0 : Nat) + i < 8; omega)) s6.1 s6.2
  exact s7

theorem foldl_xor_perm (g : Square → Nat) {l1 l2 : List Square} (h : l1.Perm l2)
    (init : Nat) :
    l1.foldl (fun key sq => key ^^^ g sq) init
      = l2.foldl (fun key sq => key ^^^ g sq) init :=
  h.foldl_eq' (fun x _ y _ z => by
    show z ^^^ g x ^^^ g y = z ^^^ g y ^^^ g x
    rw [Nat.xor_assoc, Nat.xor_assoc, Nat.xor_comm (g x) (g y)]) init

theorem parsedRanks_piecePos_perm (P : Position) (hcoh : Coh P) (q : ColoredPiece) :
    ((parsedRanks P).piecePos q).Perm (P.piecePos q) := by
  have h := parsedRanks_listCoh P
  refine (List.perm_ext_iff_of_nodup (h.2 q) (hcoh.2.2.2 q)).2 ?_
  intro t
  rw [h.1 q t, parsedRanks_board, hcoh.2.2.1 q t]

theorem fenCastlingChars_roundtrip (P : Position) (hr : P.castlingRights < 16) :
    parseCastlingChars NO_CASTLING P.fenCastlingChars = P.castlingRights := by
  unfold Position.fenCastlingChars
  revert hr
  generalize P.castlingRights = c
  intro hr
  interval_cases c <;> decide

theorem fenCastlingChars_ne_nil (P : Position) (hr : P.castlingRights < 16) :
    P.fenCastlingChars ≠ [] := by
  unfold Position.fenCastlingChars
  revert hr
  generalize P.castlingRights = c
  intro hr
  interval_cases c <;> decide

theorem fenCastlingChars_no_ws (P : Position) (hr : P.castlingRights < 16) :
    ∀ c ∈ P.fenCastlingChars, ¬c.isWhitespace := by
  unfold Position.fenCastlingChars
  revert hr
  generalize P.castlingRights = c
  intro hr
  interval_cases c <;> decide

theorem fenEp_facts :
    ∀ sq : Square,
      (¬([Char.ofNat (97 + (fileOf sq).val), Char.ofNat (49 + (rankOf sq).val)] = ['-'])) ∧
        notationToSquare
          [Char.ofNat (97 + (fileOf sq).val), Char.ofNat (49 + (rankOf sq).val)] = sq ∧
        ∀ c ∈ [Char.ofNat (97 + (fileOf sq).val), Char.ofNat (49 + (rankOf sq).val)],
          ¬c.isWhitespace := by
  decide

theorem sideTok_ne_nil (P : Position) :
    (if P.side = Color.white then ['w'] else ['b']) ≠ [] := by
  by_cases h : P.side = Color.white <;> simp [h]

theorem sideTok_no_ws (P : Position) :
    ∀ c ∈ (if P.side = Color.white then ['w'] else ['b']), ¬c.isWhitespace := by
  by_cases h : P.side = Color.white <;> simp [h] <;> decide

theorem fenEpChars_ne_nil (P : Position) : P.fenEpChars ≠ [] := by
  unfold Position.fenEpChars
  cases P.epSquare <;> simp

theorem fenEpChars_no_ws (P : Position) : ∀ c ∈ P.fenEpChars, ¬c.isWhitespace := by
  unfold Position.fenEpChars
  cases hep : P.epSquare with
  | none =>
    intro c hc
    simp only [List.mem_singleton] at hc
    subst hc
    decide
  | some sq => exact (fenEp_facts sq).2.2

theorem tokenize_fenChars (P : Position) (hr : P.castlingRights < 16) :
    tokenize P.fenChars
      = P.fenBoardChars :: (if P.side = Color.white then ['w'] else ['b'])
          :: P.fenCastlingChars :: P.fenEpChars
          :: tokenize
              ((Nat.repr P.halfMove).data ++ ' ' :: (Nat.repr ((P.ply - 1) / 2 + 1)).data) := by
  unfold Position.fenChars
  simp only [List.append_assoc, List.singleton_append, List.cons_append, List.nil_append]
  rw [tokenize_append_tok _ _ (fenBoardChars_ne_nil P) (fenBoardChars_no_ws P),
      tokenize_append_tok _ _ (sideTok_ne_nil P) (sideTok_no_ws P),
      tokenize_append_tok _ _ (fenCastlingChars_ne_nil P hr) (fenCastlingChars_no_ws P hr),
      tokenize_append_tok _ _ (fenEpChars_ne_nil P) (fenEpChars_no_ws P)]

theorem init_congr (T : ZTab) (A B : Position) (hside : A.side = B.side)
    (hcast : A.castlingRights = B.castlingRights) (hep : A.epSquare = B.epSquare)
    (hperm : ∀ q, (A.piecePos q).Perm (B.piecePos q)) :
    HashKey.init T A = HashKey.init T B := by
  unfold HashKey.init
  rw [hside, hcast, hep]
  have e1 : ∀ (cp : ColoredPiece) (init : Nat),
      (A.piecePos cp).foldl (fun key sq => key ^^^ T.piece cp sq) init
        = (B.piecePos cp).foldl (fun key sq => key ^^^ T.piece cp sq) init :=
    fun cp init => foldl_xor_perm (T.piece cp) (hperm cp) init
  simp only [List.foldl_cons, List.foldl_nil, e1]

/-- C3: parsing the FEN string emitted for a legal position yields a position
`operator==`-equal to it.  The parser restores the board, side to move,
castling rights and en-passant square exactly, rebuilds the piece lists (in
board-scan order, a permutation of the originals), and recomputes the
Zobrist key from scratch with `HashKey::init`, which agrees with the stored
key of every coherent position. -/
theorem c3_fen_roundtrip (T : ZTab) (P : Position) (hok : Ok P)
    (hz : ZobristCoh T P) :
    Position.posEq (Position.fromFen T (Position.fen P)) P = true := by
  obtain ⟨hcoh, hr, hhm⟩ := hok
  have hz' : P.zobrist = HashKey.init T P := hz
  unfold Position.fromFen
  have hdata : (Position.fen P).data = P.fenChars := rfl
  rw [hdata, tokenize_fenChars P hr]
  have hboard : ∀ sq,
      (parseFenTokens T (P.fenBoardChars
        :: (if P.side = Color.white then ['w'] else ['b'])
        :: P.fenCastlingChars :: P.fenEpChars
        :: tokenize ((Nat.repr P.halfMove).data ++ ' '
            :: (Nat.repr ((P.ply - 1) / 2 + 1)).data))).board sq = P.board sq := by
    intro sq
    show (parseBoardChars emptyPos 56 P.fenBoardChars).board sq = P.board sq
    rw [parse_fenBoardChars]
    exact parsedRanks_board P sq
  have hside :
      (parseFenTokens T (P.fenBoardChars
        :: (if P.side = Color.white then ['w'] else ['b'])
        :: P.fenCastlingChars :: P.fenEpChars
        :: tokenize ((Nat.repr P.halfMove).data ++ ' '
            :: (Nat.repr ((P.ply - 1) / 2 + 1)).data))).side = P.side := by
    show (if (if P.side = Color.white then ['w'] else ['b']) = ['w']
          then Color.white else Color.black) = P.side
    cases P.side <;> rfl
  have hcast :
      (parseFenTokens T (P.fenBoardChars
        :: (if P.side = Color.white then ['w'] else ['b'])
        :: P.fenCastlingChars :: P.fenEpChars
        :: tokenize ((Nat.repr P.halfMove).data ++ ' '
            :: (Nat.repr ((P.ply - 1) / 2 + 1)).data))).castlingRights
        = P.castlingRights := by
    show parseCastlingChars NO_CASTLING P.fenCastlingChars = P.castlingRights
    exact fenCastlingChars_roundtrip P hr
  have hep :
      (parseFenTokens T (P.fenBoardChars
        :: (if P.side = Color.white then ['w'] else ['b'])
        :: P.fenCastlingChars :: P.fenEpChars
        :: tokenize ((Nat.repr P.halfMove).data ++ ' '
            :: (Nat.repr ((P.ply - 1) / 2 + 1)).data))).epSquare = P.epSquare := by
    show (if P.fenEpChars = ['-'] then none else some (notationToSquare P.fenEpChars))
        = P.epSquare
    cases hepP : P.epSquare with
    | none =>
      rw [show P.fenEpChars = ['-'] from by unfold Position.fenEpChars; rw [hepP]]
      simp
    | some sq =>
      have hE : P.fenEpChars
          = [Char.ofNat (97 + (fileOf sq).val), Char.ofNat (49 + (rankOf sq).val)] := by
        unfold Position.fenEpChars
        rw [hepP]
      rw [hE, if_neg (fenEp_facts sq).1, (fenEp_facts sq).2.1]
  have hperm : ∀ q,
      ((parseFenTokens T (P.fenBoardChars
        :: (if P.side = Color.white then ['w'] else ['b'])
        :: P.fenCastlingChars :: P.fenEpChars
        :: tokenize ((Nat.repr P.halfMove).data ++ ' '
            :: (Nat.repr ((P.ply - 1) / 2 + 1)).data))).piecePos q).Perm (P.piecePos q) := by
    intro q
    show ((parseBoardChars emptyPos 56 P.fenBoardChars).piecePos q).Perm (P.piecePos q)
    rw [parse_fenBoardChars]
    exact parsedRanks_piecePos_perm P hcoh q
  have hzF :
      (parseFenTokens T (P.fenBoardChars
        :: (if P.side = Color.white then ['w'] else ['b'])
        :: P.fenCastlingChars :: P.fenEpChars
        :: tokenize ((Nat.repr P.halfMove).data ++ ' '
            :: (Nat.repr ((P.ply - 1) / 2 + 1)).data))).zobrist
        = HashKey.init T (parseFenTokens T (P.fenBoardChars
            :: (if P.side = Color.white then ['w'] else ['b'])
            :: P.fenCastlingChars :: P.fenEpChars
            :: tokenize ((Nat.repr P.halfMove).data ++ ' '
                :: (Nat.repr ((P.ply - 1) / 2 + 1)).data))) :=
    init_congr T _ _ rfl rfl rfl (fun q => List.Perm.refl _)
  have hkey :
      (parseFenTokens T (P.fenBoardChars
        :: (if P.side = Color.white then ['w'] else ['b'])
        :: P.fenCastlingChars :: P.fenEpChars
        :: tokenize ((Nat.repr P.halfMove).data ++ ' '
            :: (Nat.repr ((P.ply - 1) / 2 + 1)).data))).zobrist.get_key
        = P.zobrist.get_key := by
    rw [hzF, hz']
    exact congrArg HashKey.get_key (init_congr T _ P hside hcast hep hperm)
  show decide _ = true
  rw [decide_eq_true_eq]
  exact ⟨hkey, hside, hcast, hep, hboard⟩

theorem c3_fen_roundtrip_witness :
    (Ok startPos ∧ ZobristCoh T0 startPos) ∧
      Position.posEq (Position.fromFen T0 (Position.fen startPos)) startPos = true :=
  ⟨⟨by decide, by decide⟩, c3_fen_roundtrip T0 startPos (by decide) (by decide)⟩

end engine
